import Mathlib

/-
  Verification development for the ASCII-diagram-to-SVG renderer
  (aasvg, Porffor-compatible JavaScript port).

  Strings are modelled as `List Char` (JS strings are sequences of UTF-16
  code units; every operation used by the program is per-code-unit).
  JS `while` loops whose index advances by a computed amount are modelled
  with an explicit fuel parameter; the fuel passed by the callers is always
  sufficient (each loop iteration advances the index by at least one and
  the index is bounded by the grid dimension), which is proved below.
-/

namespace Aasvg

/-- The set of characters removed by JS `String.prototype.trim`
    (WhiteSpace and LineTerminator code points). -/
def jsWhitespace (c : Char) : Bool :=
  c = ' ' || c = '\t' || c = '\n' || c = '\r' || c.toNat = 11 || c.toNat = 12 ||
  c.toNat = 160 || c.toNat = 0x1680 || (0x2000 ≤ c.toNat && c.toNat ≤ 0x200A) ||
  c.toNat = 0x2028 || c.toNat = 0x2029 || c.toNat = 0x202F || c.toNat = 0x205F ||
  c.toNat = 0x3000 || c.toNat = 0xFEFF

/-- `line.trim() === ''` : the line consists only of JS whitespace. -/
def blankLine (l : List Char) : Bool := l.all jsWhitespace

/-- JS `str.split('\n')` (note: `"".split('\n')` is `[""]`,
    and a trailing newline yields a trailing empty element). -/
def splitLines : List Char → List (List Char)
  | [] => [[]]
  | c :: rest =>
    if c = '\n' then [] :: splitLines rest
    else
      match splitLines rest with
      | [] => [[c]]
      | l :: ls => (c :: l) :: ls

/-- The inner loop of `removeLeadingSpace`: count of leading ' '/'\t'
    characters of a line (stops at the first other character). -/
def spaceCount : List Char → Nat
  | [] => 0
  | c :: r => if c = ' ' || c = '\t' then spaceCount r + 1 else 0

/-- The minimum-computation loop of `removeLeadingSpace`:
    fold over the lines, starting from the sentinel 999999, updating the
    accumulator with `spaceCount line` whenever the line is non-blank and
    its count is strictly smaller. -/
def minLead (ls : List (List Char)) : Nat :=
  ls.foldl
    (fun m l =>
      if blankLine l then m
      else if spaceCount l < m then spaceCount l else m)
    999999

/-- `removeLeadingSpace` from the source: split on '\n', compute the
    minimum leading space/tab count over non-blank lines (sentinel 999999),
    return the input unchanged if the minimum is 0 or the sentinel,
    otherwise rebuild the string from every line with `substring(minimum)`
    (which saturates, i.e. `List.drop`) plus a trailing '\n'. -/
def removeLeadingSpace (str : List Char) : List Char :=
  let lineArray := splitLines str
  let minimum := minLead lineArray
  if minimum = 0 ∨ minimum = 999999 then str
  else ((lineArray.map (fun l => l.drop minimum ++ ['\n'])).flatten)

/-- `gridGet(lines, x, y)`: bounds-checked lookup returning ' ' out of
    range (the source also checks `y < 0` / `x < 0`, which cannot occur
    for `Nat` indices; all call sites use non-negative loop indices). -/
def gridGet (lines : List (List Char)) (x y : Nat) : Char :=
  (lines.getD y []).getD x ' '

/-- `gridWidth`: maximum line length (fold mirroring the source loop). -/
def gridWidth (lines : List (List Char)) : Nat :=
  lines.foldl (fun w l => if l.length > w then l.length else w) 0

/-- `gridHeight`: line count, minus one if the last line is empty. -/
def gridHeight (lines : List (List Char)) : Nat :=
  if 0 < lines.length ∧ lines.getD (lines.length - 1) [] = [] then
    lines.length - 1
  else lines.length

/-- `isVertex`: `+`, `.`, `'` (U+0027), backquote (U+0060), `,`. -/
def isVertex (c : Char) : Bool :=
  c = '+' || c = '.' || c = Char.ofNat 39 || c = Char.ofNat 96 || c = ','

def isSolidHLine (c : Char) : Bool := c = '-' || c = '+'

def isSolidVLine (c : Char) : Bool := c = '|' || c = '+'

def isArrowHead (c : Char) : Bool :=
  c = '>' || c = '<' || c = '^' || c = 'v' || c = 'V'

def isPoint (c : Char) : Bool := c = 'o' || c = '*'

/-- The escaping loop body: entity for `&`, `<`, `>`, `"`,
    the character itself otherwise. -/
def escChunk (c : Char) : List Char :=
  if c = '&' then "&amp;".data
  else if c = '<' then "&lt;".data
  else if c = '>' then "&gt;".data
  else if c = '"' then "&quot;".data
  else [c]

/-- The accumulator loop of `escapeHTMLEntities` (`result += ...`). -/
def escLoop : List Char → List Char → List Char
  | [], result => result
  | c :: rest, result => escLoop rest (result ++ escChunk c)

/-- `escapeHTMLEntities(str)`: left-to-right accumulation starting from
    the empty string. -/
def escapeHTMLEntities (str : List Char) : List Char := escLoop str []

def SCALE : Nat := 8

def ASPECT : Nat := 2

/-- Decimal digits of `n`, most significant first (fuel-based division
    loop; empty for 0). -/
def natDigits : Nat → Nat → List Char
  | 0, _ => []
  | fuel + 1, n =>
    if n = 0 then []
    else natDigits fuel (n / 10) ++ [Char.ofNat (48 + n % 10)]

/-- JS number-to-string for the natural numbers produced by the renderer. -/
def natStr (n : Nat) : List Char :=
  if n = 0 then ['0'] else natDigits (n + 1) n

/-- The `<svg ...>` header line built by `render` (everything before the
    first emitted element, including the trailing newline). -/
def svgHeader (svgWidth svgHeight : Nat) : List Char :=
  "<svg xmlns=\"http://www.w3.org/2000/svg\" version=\"1.1\"".data
  ++ " width=\"".data ++ natStr svgWidth ++ "\" height=\"".data ++ natStr svgHeight ++ "\"".data
  ++ " viewBox=\"0 0 ".data ++ natStr svgWidth ++ " ".data ++ natStr svgHeight ++ "\"".data
  ++ " class=\"diagram\" text-anchor=\"middle\" font-family=\"monospace\"".data
  ++ " font-size=\"13px\" stroke-linecap=\"round\">\n".data

/-- The `<line>` element for a horizontal run `[startX, xEnd)` in row `y`. -/
def hLineStr (startX xEnd y : Nat) : List Char :=
  "<line x1=\"".data ++ natStr ((startX + 1) * SCALE)
  ++ "\" y1=\"".data ++ natStr ((y + 1) * SCALE * ASPECT)
  ++ "\" x2=\"".data ++ natStr (xEnd * SCALE)
  ++ "\" y2=\"".data ++ natStr ((y + 1) * SCALE * ASPECT)
  ++ "\" fill=\"none\" stroke=\"black\"/>\n".data

/-- The `<line>` element for a vertical run `[startY, yEnd)` in column `x`. -/
def vLineStr (x startY yEnd : Nat) : List Char :=
  "<line x1=\"".data ++ natStr ((x + 1) * SCALE)
  ++ "\" y1=\"".data ++ natStr ((startY + 1) * SCALE * ASPECT)
  ++ "\" x2=\"".data ++ natStr ((x + 1) * SCALE)
  ++ "\" y2=\"".data ++ natStr (yEnd * SCALE * ASPECT)
  ++ "\" fill=\"none\" stroke=\"black\"/>\n".data

/-- Rotation angle of an arrowhead character. -/
def arrowAngle (c : Char) : Nat :=
  if c = '>' then 0
  else if c = 'v' || c = 'V' then 90
  else if c = '<' then 180
  else if c = '^' then 270
  else 0

/-- The `<polygon>` element for an arrowhead character at cell (x, y). -/
def arrowStr (c : Char) (x y : Nat) : List Char :=
  let cx := (x + 1) * SCALE
  let cy := (y + 1) * SCALE * ASPECT
  "<polygon points=\"".data ++ natStr (cx + 8) ++ ",".data ++ natStr cy
  ++ " ".data ++ natStr (cx - 4) ++ ",".data ++ natStr (cy - 3)
  ++ " ".data ++ natStr (cx - 4) ++ ",".data ++ natStr (cy + 3)
  ++ "\" fill=\"black\" transform=\"rotate(".data ++ natStr (arrowAngle c)
  ++ ",".data ++ natStr cx ++ ",".data ++ natStr cy ++ ")\"/>\n".data

/-- The `<circle>` element for a point character at cell (x, y):
    filled for '*', hollow for 'o'. -/
def pointStr (c : Char) (x y : Nat) : List Char :=
  let cx := (x + 1) * SCALE
  let cy := (y + 1) * SCALE * ASPECT
  if c = '*' then
    "<circle cx=\"".data ++ natStr cx ++ "\" cy=\"".data ++ natStr cy
    ++ "\" r=\"6\" fill=\"black\"/>\n".data
  else
    "<circle cx=\"".data ++ natStr cx ++ "\" cy=\"".data ++ natStr cy
    ++ "\" r=\"6\" fill=\"white\" stroke=\"black\"/>\n".data

/-- The `<text>` element for a leftover character at cell (x, y). -/
def textStr (c : Char) (x y : Nat) : List Char :=
  "<text x=\"".data ++ natStr ((x + 1) * SCALE)
  ++ "\" y=\"".data ++ natStr (4 + (y + 1) * SCALE * ASPECT)
  ++ "\">".data ++ escapeHTMLEntities [c] ++ "</text>\n".data

/-- The used-mask: flat boolean array of size height*width, pushed false. -/
def usedInit (n : Nat) : List Bool := List.replicate n false

/-- `used[i] = true` (JS array store; all stores are in bounds). -/
def setUsed (used : List Bool) (i : Nat) : List Bool := used.set i true

/-- `used[i]` read (false when out of range, matching JS undefined). -/
def getUsed (used : List Bool) (i : Nat) : Bool := used.getD i false

/-- Inner `while (x < width && isSolidHLine(...))` loop of the horizontal
    scan: advance `x`, marking each consumed cell used.  Returns the final
    `x` and the updated mask. -/
def hRunLoop (g : List (List Char)) (w y : Nat) :
    Nat → Nat → List Bool → Nat × List Bool
  | 0, x, used => (x, used)
  | fuel + 1, x, used =>
    if x < w ∧ isSolidHLine (gridGet g x y) then
      hRunLoop g w y fuel (x + 1) (setUsed used (y * w + x))
    else (x, used)

/-- Outer `while (x < width)` loop of the horizontal scan over one row:
    on a line character, consume the whole run (inner loop above, fuel `w`
    is enough as the run ends at `x = w` at the latest), emit a `<line>`
    when the run length is at least 2, and continue after the run. -/
def hScanRow (g : List (List Char)) (w y : Nat) :
    Nat → Nat → List Bool → List Char → List Bool × List Char
  | 0, _, used, svg => (used, svg)
  | fuel + 1, x, used, svg =>
    if x < w then
      if isSolidHLine (gridGet g x y) then
        let r := hRunLoop g w y w x used
        let svg2 := if 2 ≤ r.1 - x then svg ++ hLineStr x r.1 y else svg
        hScanRow g w y fuel r.1 r.2 svg2
      else hScanRow g w y fuel (x + 1) used svg
    else (used, svg)

/-- `for (y ...)` over all rows of the horizontal-line pass. -/
def hPass (g : List (List Char)) (w h : Nat) (used : List Bool)
    (svg : List Char) : List Bool × List Char :=
  (List.range h).foldl (fun st y => hScanRow g w y w 0 st.1 st.2) (used, svg)

/-- Inner `while (y < height && isSolidVLine(...))` loop of the vertical
    scan. -/
def vRunLoop (g : List (List Char)) (w h x : Nat) :
    Nat → Nat → List Bool → Nat × List Bool
  | 0, y, used => (y, used)
  | fuel + 1, y, used =>
    if y < h ∧ isSolidVLine (gridGet g x y) then
      vRunLoop g w h x fuel (y + 1) (setUsed used (y * w + x))
    else (y, used)

/-- Outer `while (y < height)` loop of the vertical scan over one column. -/
def vScanCol (g : List (List Char)) (w h x : Nat) :
    Nat → Nat → List Bool → List Char → List Bool × List Char
  | 0, _, used, svg => (used, svg)
  | fuel + 1, y, used, svg =>
    if y < h then
      if isSolidVLine (gridGet g x y) then
        let r := vRunLoop g w h x h y used
        let svg2 := if 2 ≤ r.1 - y then svg ++ vLineStr x y r.1 else svg
        vScanCol g w h x fuel r.1 r.2 svg2
      else vScanCol g w h x fuel (y + 1) used svg
    else (used, svg)

/-- `for (x ...)` over all columns of the vertical-line pass. -/
def vPass (g : List (List Char)) (w h : Nat) (used : List Bool)
    (svg : List Char) : List Bool × List Char :=
  (List.range w).foldl (fun st x => vScanCol g w h x h 0 st.1 st.2) (used, svg)

/-- The arrowhead pass: nested `for` loops; every arrowhead cell emits a
    polygon and is marked used. -/
def arrowPass (g : List (List Char)) (w h : Nat) (used : List Bool)
    (svg : List Char) : List Bool × List Char :=
  (List.range h).foldl
    (fun st y =>
      (List.range w).foldl
        (fun st x =>
          let c := gridGet g x y
          if isArrowHead c then
            (setUsed st.1 (y * w + x), st.2 ++ arrowStr c x y)
          else st)
        st)
    (used, svg)

/-- The point pass: nested `for` loops; every 'o'/'*' cell emits a circle
    and is marked used. -/
def pointPass (g : List (List Char)) (w h : Nat) (used : List Bool)
    (svg : List Char) : List Bool × List Char :=
  (List.range h).foldl
    (fun st y =>
      (List.range w).foldl
        (fun st x =>
          let c := gridGet g x y
          if isPoint c then
            (setUsed st.1 (y * w + x), st.2 ++ pointStr c x y)
          else st)
        st)
    (used, svg)

/-- The text pass: nested `for` loops; every cell not marked used whose
    character is neither ' ' nor a vertex marker emits a text element.
    The mask is not modified by this pass. -/
def textPass (g : List (List Char)) (w h : Nat) (used : List Bool)
    (svg : List Char) : List Bool × List Char :=
  (List.range h).foldl
    (fun st y =>
      (List.range w).foldl
        (fun st x =>
          if getUsed st.1 (y * w + x) then st
          else
            let c := gridGet g x y
            if c ≠ ' ' ∧ ¬isVertex c then (st.1, st.2 ++ textStr c x y)
            else st)
        st)
    (used, svg)

/-- `render(diagramString)`: the whole pipeline of the source —
    dedent, split, grid dimensions, header, used-mask, the four scan/emit
    passes in order, the text group, and the closing tags. -/
def render (diagramString : List Char) : List Char :=
  let processed := removeLeadingSpace diagramString
  let lines := splitLines processed
  let width := gridWidth lines
  let height := gridHeight lines
  let svgWidth := (width + 1) * SCALE
  let svgHeight := (height + 1) * SCALE * ASPECT
  let svg0 := svgHeader svgWidth svgHeight
  let used0 := usedInit (height * width)
  let st1 := hPass lines width height used0 svg0
  let st2 := vPass lines width height st1.1 st1.2
  let st3 := arrowPass lines width height st2.1 st2.2
  let st4 := pointPass lines width height st3.1 st3.2
  let st5 := textPass lines width height st4.1 (st4.2 ++ "<g class=\"text\">\n".data)
  st5.2 ++ "</g>\n".data ++ "</svg>".data

/-
  Structured view of the scans: the same fuel recursions, but returning
  the list of maximal runs / emitted cells instead of threading the mask
  and the output string.  The backbone theorem below proves that `render`
  equals the assembly of these structured components.
-/

/-- Final index of the inner horizontal-run loop (first `x' ≥ x` with
    `x' = w` or a non-line character, fuel permitting). -/
def hRunEnd (g : List (List Char)) (w y : Nat) : Nat → Nat → Nat
  | 0, x => x
  | fuel + 1, x =>
    if x < w ∧ isSolidHLine (gridGet g x y) then hRunEnd g w y fuel (x + 1)
    else x

/-- Maximal horizontal runs `(start, stop)` found by the row scan from
    position `x` (stop exclusive). -/
def hRowRuns (g : List (List Char)) (w y : Nat) : Nat → Nat → List (Nat × Nat)
  | 0, _ => []
  | fuel + 1, x =>
    if x < w then
      if isSolidHLine (gridGet g x y) then
        (x, hRunEnd g w y w x) :: hRowRuns g w y fuel (hRunEnd g w y w x)
      else hRowRuns g w y fuel (x + 1)
    else []

/-- Final index of the inner vertical-run loop. -/
def vRunEnd (g : List (List Char)) (h x : Nat) : Nat → Nat → Nat
  | 0, y => y
  | fuel + 1, y =>
    if y < h ∧ isSolidVLine (gridGet g x y) then vRunEnd g h x fuel (y + 1)
    else y

/-- Maximal vertical runs `(start, stop)` found by the column scan. -/
def vColRuns (g : List (List Char)) (h x : Nat) : Nat → Nat → List (Nat × Nat)
  | 0, _ => []
  | fuel + 1, y =>
    if y < h then
      if isSolidVLine (gridGet g x y) then
        (y, vRunEnd g h x h y) :: vColRuns g h x fuel (vRunEnd g h x h y)
      else vColRuns g h x fuel (y + 1)
    else []

/-- All horizontal runs of the grid, as `(y, start, stop)`, in scan order. -/
def hLinesAll (g : List (List Char)) (w h : Nat) : List (Nat × Nat × Nat) :=
  (List.range h).flatMap
    (fun y => (hRowRuns g w y w 0).map (fun r => (y, r.1, r.2)))

/-- The horizontal runs that produce a `<line>` element (length ≥ 2). -/
def hLineElems (g : List (List Char)) (w h : Nat) : List (Nat × Nat × Nat) :=
  (hLinesAll g w h).filter (fun r => 2 ≤ r.2.2 - r.2.1)

/-- All vertical runs of the grid, as `(x, start, stop)`, in scan order. -/
def vLinesAll (g : List (List Char)) (w h : Nat) : List (Nat × Nat × Nat) :=
  (List.range w).flatMap
    (fun x => (vColRuns g h x h 0).map (fun r => (x, r.1, r.2)))

/-- The vertical runs that produce a `<line>` element (length ≥ 2). -/
def vLineElems (g : List (List Char)) (w h : Nat) : List (Nat × Nat × Nat) :=
  (vLinesAll g w h).filter (fun r => 2 ≤ r.2.2 - r.2.1)

/-- Arrowhead cells `(character, x, y)` in row-major scan order. -/
def arrowElems (g : List (List Char)) (w h : Nat) : List (Char × Nat × Nat) :=
  (List.range h).flatMap (fun y =>
    (List.range w).flatMap (fun x =>
      if isArrowHead (gridGet g x y) then [(gridGet g x y, x, y)] else []))

/-- Point cells `(character, x, y)` in row-major scan order. -/
def pointElems (g : List (List Char)) (w h : Nat) : List (Char × Nat × Nat) :=
  (List.range h).flatMap (fun y =>
    (List.range w).flatMap (fun x =>
      if isPoint (gridGet g x y) then [(gridGet g x y, x, y)] else []))

/-- A cell is marked used by the scans exactly when its character is a
    line, arrowhead, or point character (proved below). -/
def usedCell (g : List (List Char)) (x y : Nat) : Bool :=
  isSolidHLine (gridGet g x y) || isSolidVLine (gridGet g x y) ||
  isArrowHead (gridGet g x y) || isPoint (gridGet g x y)

/-- Text cells `(character, x, y)`: never marked used, not a blank and
    not a vertex marker. -/
def textElems (g : List (List Char)) (w h : Nat) : List (Char × Nat × Nat) :=
  (List.range h).flatMap (fun y =>
    (List.range w).flatMap (fun x =>
      if ¬usedCell g x y ∧ (gridGet g x y ≠ ' ' ∧ ¬isVertex (gridGet g x y))
      then [(gridGet g x y, x, y)] else []))

/-- The lines array `render` works on. -/
def linesOf (s : List Char) : List (List Char) :=
  splitLines (removeLeadingSpace s)

def widthOf (s : List Char) : Nat := gridWidth (linesOf s)

def heightOf (s : List Char) : Nat := gridHeight (linesOf s)

/-- `render` reassembled from the structured element lists. -/
def renderStructured (s : List Char) : List Char :=
  let g := linesOf s
  let w := widthOf s
  let h := heightOf s
  svgHeader ((w + 1) * SCALE) ((h + 1) * SCALE * ASPECT)
  ++ ((hLineElems g w h).map (fun r => hLineStr r.2.1 r.2.2 r.1)).flatten
  ++ ((vLineElems g w h).map (fun r => vLineStr r.1 r.2.1 r.2.2)).flatten
  ++ ((arrowElems g w h).map (fun e => arrowStr e.1 e.2.1 e.2.2)).flatten
  ++ ((pointElems g w h).map (fun e => pointStr e.1 e.2.1 e.2.2)).flatten
  ++ "<g class=\"text\">\n".data
  ++ ((textElems g w h).map (fun e => textStr e.1 e.2.1 e.2.2)).flatten
  ++ "</g>\n".data ++ "</svg>".data

/-  Basic facts about the used-mask. -/

/-- Marking a list of cell indices, left to right. -/
def markCells (u : List Bool) (l : List Nat) : List Bool := l.foldl setUsed u

theorem markCells_append (u : List Bool) (a b : List Nat) :
    markCells u (a ++ b) = markCells (markCells u a) b :=
  List.foldl_append _ _ _ _

theorem length_markCells (l : List Nat) :
    ∀ u : List Bool, (markCells u l).length = u.length := by
  induction l with
  | nil => intro u; rfl
  | cons i l ih =>
    intro u
    show (markCells (setUsed u i) l).length = u.length
    rw [ih, setUsed, List.length_set]

theorem getUsed_setUsed (u : List Bool) (i j : Nat) :
    getUsed (setUsed u i) j = true ↔
      ((i = j ∧ i < u.length) ∨ getUsed u j = true) := by
  simp only [getUsed, setUsed, List.getD_eq_getElem?_getD, List.getElem?_set]
  by_cases hij : i = j
  · subst hij
    by_cases hi : i < u.length
    · simp [hi]
    · simp [hi, List.getElem?_eq_none (Nat.le_of_not_lt hi)]
  · simp [hij]

theorem getUsed_markCells (l : List Nat) :
    ∀ (u : List Bool) (j : Nat),
      getUsed (markCells u l) j = true ↔
        (getUsed u j = true ∨ (j ∈ l ∧ j < u.length)) := by
  induction l with
  | nil => intro u j; simp [markCells]
  | cons i l ih =>
    intro u j
    show getUsed (markCells (setUsed u i) l) j = true ↔ _
    rw [ih, getUsed_setUsed, setUsed, List.length_set]
    constructor
    · rintro ((⟨rfl, h⟩ | h) | ⟨hm, hlen⟩)
      · exact Or.inr ⟨List.mem_cons_self _ _, h⟩
      · exact Or.inl h
      · exact Or.inr ⟨List.mem_cons_of_mem _ hm, hlen⟩
    · rintro (h | ⟨hm, hlen⟩)
      · exact Or.inl (Or.inr h)
      · rcases List.mem_cons.mp hm with rfl | hm
        · exact Or.inl (Or.inl ⟨rfl, hlen⟩)
        · exact Or.inr ⟨hm, hlen⟩

theorem getUsed_usedInit (n : Nat) : ∀ j, getUsed (usedInit n) j = false := by
  induction n with
  | zero => intro j; cases j <;> rfl
  | succ n ih =>
    intro j
    cases j with
    | zero => rfl
    | succ j => exact ih j

/-  Generic splitting of the emit loops. -/

theorem foldl_emit_split_mark (C : Nat → List Nat) (o : Nat → List Char) :
    ∀ (l : List Nat) (u : List Bool) (s : List Char),
      l.foldl (fun st i => (markCells st.1 (C i), st.2 ++ o i)) (u, s)
        = (markCells u (l.flatMap C), s ++ l.flatMap o) := by
  intro l
  induction l with
  | nil => intro u s; simp [markCells]
  | cons i l ih =>
    intro u s
    simp only [List.foldl_cons, List.flatMap_cons, ih, List.append_assoc,
      markCells_append]

theorem foldl_emit_ro (o : List Bool → Nat → List Char) :
    ∀ (l : List Nat) (u : List Bool) (s : List Char),
      l.foldl (fun st i => (st.1, st.2 ++ o st.1 i)) (u, s)
        = (u, s ++ l.flatMap (o u)) := by
  intro l
  induction l with
  | nil => intro u s; simp
  | cons i l ih =>
    intro u s
    simp only [List.foldl_cons, List.flatMap_cons, ih, List.append_assoc]

theorem flatMap_emit_filter {α : Type} (p : α → Prop) [DecidablePred p]
    (F : α → List Char) :
    ∀ l : List α,
      l.flatMap (fun r => if p r then F r else [])
        = ((l.filter (fun r => p r)).map F).flatten := by
  intro l
  induction l with
  | nil => rfl
  | cons a l ih =>
    by_cases h : p a
    · simp [List.flatMap_cons, List.filter_cons, h, ih]
    · simp [List.flatMap_cons, List.filter_cons, h, ih]

theorem flatten_map_flatMap {α β : Type} (F : β → List Char) (G : α → List β) :
    ∀ l : List α,
      (((l.flatMap G).map F)).flatten
        = l.flatMap (fun a => ((G a).map F).flatten) := by
  intro l
  induction l with
  | nil => rfl
  | cons a l ih =>
    simp only [List.flatMap_cons, List.map_append, List.flatten_append, ih]

theorem ite_singleton_map_flatten {α : Type} {p : Prop} [Decidable p]
    (F : α → List Char) (e : α) :
    (((if p then [e] else []).map F)).flatten = (if p then F e else []) := by
  by_cases h : p
  · simp [h]
  · simp [h]

theorem mem_ite_singleton {α : Type} {p : Prop} [Decidable p] {a b : α} :
    (a ∈ if p then [b] else []) ↔ p ∧ a = b := by
  split
  · next hp => simp [hp]
  · next hp => simp [hp]

/-  Properties of the horizontal run scan. -/

theorem hRunEnd_ge (g : List (List Char)) (w y : Nat) :
    ∀ fuel x, x ≤ hRunEnd g w y fuel x := by
  intro fuel
  induction fuel with
  | zero => intro x; exact Nat.le_refl x
  | succ fuel ih =>
    intro x
    unfold hRunEnd
    split
    · exact Nat.le_trans (Nat.le_succ x) (ih (x + 1))
    · exact Nat.le_refl x

theorem hRunEnd_le (g : List (List Char)) (w y : Nat) :
    ∀ fuel x, x ≤ w → hRunEnd g w y fuel x ≤ w := by
  intro fuel
  induction fuel with
  | zero => intro x hx; exact hx
  | succ fuel ih =>
    intro x hx
    unfold hRunEnd
    split
    · next hc => exact ih (x + 1) hc.1
    · exact hx

theorem hRunEnd_line (g : List (List Char)) (w y : Nat) :
    ∀ fuel x t, x ≤ t → t < hRunEnd g w y fuel x →
      isSolidHLine (gridGet g t y) = true := by
  intro fuel
  induction fuel with
  | zero =>
    intro x t hxt ht
    exact absurd (Nat.lt_of_le_of_lt hxt ht) (Nat.lt_irrefl x)
  | succ fuel ih =>
    intro x t hxt ht
    rw [hRunEnd] at ht
    by_cases hc : x < w ∧ isSolidHLine (gridGet g x y)
    · rw [if_pos hc] at ht
      rcases Nat.eq_or_lt_of_le hxt with rfl | hlt
      · exact hc.2
      · exact ih (x + 1) t hlt ht
    · rw [if_neg hc] at ht
      exact absurd (Nat.lt_of_le_of_lt hxt ht) (Nat.lt_irrefl x)

theorem hRunEnd_stop (g : List (List Char)) (w y : Nat) :
    ∀ fuel x, w ≤ x + fuel →
      w ≤ hRunEnd g w y fuel x ∨
        isSolidHLine (gridGet g (hRunEnd g w y fuel x) y) = false := by
  intro fuel
  induction fuel with
  | zero => intro x hx; exact Or.inl hx
  | succ fuel ih =>
    intro x hx
    unfold hRunEnd
    split
    · exact ih (x + 1) (by omega)
    · next hc =>
      by_cases hxw : x < w
      · refine Or.inr ?_
        by_cases hl : isSolidHLine (gridGet g x y) = true
        · exact absurd ⟨hxw, hl⟩ hc
        · exact Bool.eq_false_iff.mpr hl
      · exact Or.inl (Nat.le_of_not_lt hxw)

theorem hRunEnd_gt (g : List (List Char)) (w y : Nat) :
    ∀ fuel x, x < w → isSolidHLine (gridGet g x y) = true → 1 ≤ fuel →
      x < hRunEnd g w y fuel x := by
  intro fuel
  cases fuel with
  | zero => intro x _ _ h; exact absurd h (by omega)
  | succ fuel =>
    intro x hx hl _
    unfold hRunEnd
    rw [if_pos ⟨hx, hl⟩]
    exact Nat.lt_of_lt_of_le (Nat.lt_succ_self x) (hRunEnd_ge g w y fuel (x + 1))

/-- Used-mask indices of one horizontal run in row `y`. -/
def runCellsH (w y : Nat) (r : Nat × Nat) : List Nat :=
  (List.range' r.1 (r.2 - r.1)).map (fun t => y * w + t)

/-- Output contributed by one horizontal run (empty below length 2). -/
def emitH (y : Nat) (r : Nat × Nat) : List Char :=
  if 2 ≤ r.2 - r.1 then hLineStr r.1 r.2 y else []

theorem hRunLoop_fst (g : List (List Char)) (w y : Nat) :
    ∀ fuel x u, (hRunLoop g w y fuel x u).1 = hRunEnd g w y fuel x := by
  intro fuel
  induction fuel with
  | zero => intro x u; rfl
  | succ fuel ih =>
    intro x u
    rw [hRunLoop, hRunEnd]
    split
    · exact ih (x + 1) _
    · rfl

theorem hRunLoop_snd (g : List (List Char)) (w y : Nat) :
    ∀ fuel x u,
      (hRunLoop g w y fuel x u).2
        = markCells u (runCellsH w y (x, hRunEnd g w y fuel x)) := by
  intro fuel
  induction fuel with
  | zero =>
    intro x u
    simp [hRunLoop, hRunEnd, runCellsH, markCells]
  | succ fuel ih =>
    intro x u
    rw [hRunLoop, hRunEnd]
    split
    · next hc =>
      rw [ih (x + 1) _]
      have hge : x + 1 ≤ hRunEnd g w y fuel (x + 1) := hRunEnd_ge g w y fuel (x + 1)
      have hsub : hRunEnd g w y fuel (x + 1) - x
          = (hRunEnd g w y fuel (x + 1) - (x + 1)) + 1 := by omega
      simp only [runCellsH, hsub, List.range'_succ, List.map_cons]
      rfl
    · simp [runCellsH, markCells]

theorem hScanRow_eq (g : List (List Char)) (w y : Nat) :
    ∀ fuel x u s,
      hScanRow g w y fuel x u s
        = (markCells u ((hRowRuns g w y fuel x).flatMap (runCellsH w y)),
           s ++ (hRowRuns g w y fuel x).flatMap (emitH y)) := by
  intro fuel
  induction fuel with
  | zero =>
    intro x u s
    simp [hScanRow, hRowRuns, markCells]
  | succ fuel ih =>
    intro x u s
    rw [hScanRow, hRowRuns]
    by_cases hx : x < w
    · rw [if_pos hx, if_pos hx]
      by_cases hline : isSolidHLine (gridGet g x y) = true
      · rw [if_pos hline, if_pos hline]
        have hfst := hRunLoop_fst g w y w x u
        have hsnd := hRunLoop_snd g w y w x u
        simp only [hfst, hsnd, ih, List.flatMap_cons, markCells_append]
        congr 1
        by_cases hlen : 2 ≤ hRunEnd g w y w x - x
        · rw [if_pos hlen, emitH, if_pos hlen, List.append_assoc]
        · rw [if_neg hlen, emitH, if_neg hlen, List.nil_append]
      · rw [if_neg hline, if_neg hline]
        exact ih (x + 1) u s
    · rw [if_neg hx, if_neg hx]
      simp [markCells]

theorem hPass_eq (g : List (List Char)) (w h : Nat) (u : List Bool)
    (s : List Char) :
    hPass g w h u s
      = (markCells u ((List.range h).flatMap
            (fun y => (hRowRuns g w y w 0).flatMap (runCellsH w y))),
         s ++ (List.range h).flatMap
            (fun y => (hRowRuns g w y w 0).flatMap (emitH y))) := by
  have hbody : (fun (st : List Bool × List Char) y => hScanRow g w y w 0 st.1 st.2)
      = fun st y =>
          (markCells st.1 ((hRowRuns g w y w 0).flatMap (runCellsH w y)),
           st.2 ++ (hRowRuns g w y w 0).flatMap (emitH y)) := by
    funext st y
    exact hScanRow_eq g w y w 0 st.1 st.2
  rw [hPass, hbody]
  exact foldl_emit_split_mark
    (fun y => (hRowRuns g w y w 0).flatMap (runCellsH w y))
    (fun y => (hRowRuns g w y w 0).flatMap (emitH y))
    (List.range h) u s

theorem hRowRuns_sound (g : List (List Char)) (w y : Nat) :
    ∀ fuel x r, r ∈ hRowRuns g w y fuel x →
      x ≤ r.1 ∧ r.1 < r.2 ∧ r.2 ≤ w ∧
        ∀ t, r.1 ≤ t → t < r.2 → isSolidHLine (gridGet g t y) = true := by
  intro fuel
  induction fuel with
  | zero => intro x r hr; exact absurd hr (List.not_mem_nil r)
  | succ fuel ih =>
    intro x r hr
    rw [hRowRuns] at hr
    by_cases hx : x < w
    · rw [if_pos hx] at hr
      by_cases hline : isSolidHLine (gridGet g x y) = true
      · rw [if_pos hline] at hr
        rcases List.mem_cons.mp hr with rfl | hr
        · refine ⟨Nat.le_refl x, ?_, ?_, ?_⟩
          · exact hRunEnd_gt g w y w x hx hline (by omega)
          · exact hRunEnd_le g w y w x (Nat.le_of_lt hx)
          · intro t h1 h2; exact hRunEnd_line g w y w x t h1 h2
        · have := ih _ r hr
          exact ⟨Nat.le_trans (hRunEnd_ge g w y w x) this.1, this.2⟩
      · rw [if_neg hline] at hr
        have := ih _ r hr
        exact ⟨Nat.le_trans (Nat.le_succ x) this.1, this.2⟩
    · rw [if_neg hx] at hr
      exact absurd hr (List.not_mem_nil r)

theorem hRowRuns_cover (g : List (List Char)) (w y : Nat) :
    ∀ fuel x t, w ≤ x + fuel → x ≤ t → t < w →
      (isSolidHLine (gridGet g t y) = true ↔
        ∃ r ∈ hRowRuns g w y fuel x, r.1 ≤ t ∧ t < r.2) := by
  intro fuel
  induction fuel with
  | zero => intro x t hf hxt htw; omega
  | succ fuel ih =>
    intro x t hf hxt htw
    rw [hRowRuns]
    have hx : x < w := Nat.lt_of_le_of_lt hxt htw
    rw [if_pos hx]
    by_cases hline : isSolidHLine (gridGet g x y) = true
    · rw [if_pos hline]
      set e := hRunEnd g w y w x with he
      have hxe : x < e := hRunEnd_gt g w y w x hx hline (by omega)
      by_cases hte : t < e
      · constructor
        · intro _
          exact ⟨(x, e), List.mem_cons_self _ _, hxt, hte⟩
        · intro _
          exact hRunEnd_line g w y w x t hxt hte
      · have hiht := ih e t (by omega) (Nat.le_of_not_lt hte) htw
        constructor
        · intro hl
          rcases (hiht.mp hl) with ⟨r, hr, hcov⟩
          exact ⟨r, List.mem_cons_of_mem _ hr, hcov⟩
        · rintro ⟨r, hr, hcov⟩
          rcases List.mem_cons.mp hr with rfl | hr
          · exact absurd hcov.2 hte
          · exact hiht.mpr ⟨r, hr, hcov⟩
    · rw [if_neg hline]
      rcases Nat.eq_or_lt_of_le hxt with rfl | hlt
      · constructor
        · intro hl; exact absurd hl hline
        · rintro ⟨r, hr, hcov⟩
          have := (hRowRuns_sound g w y fuel (x + 1) r hr).1
          omega
      · exact ih (x + 1) t (by omega) hlt htw

/-  Properties of the vertical run scan (mirror of the horizontal ones). -/

/-- Used-mask indices of one vertical run in column `x`. -/
def runCellsV (w x : Nat) (r : Nat × Nat) : List Nat :=
  (List.range' r.1 (r.2 - r.1)).map (fun t => t * w + x)

/-- Output contributed by one vertical run (empty below length 2). -/
def emitV (x : Nat) (r : Nat × Nat) : List Char :=
  if 2 ≤ r.2 - r.1 then vLineStr x r.1 r.2 else []

theorem vRunEnd_ge (g : List (List Char)) (h x : Nat) :
    ∀ fuel y, y ≤ vRunEnd g h x fuel y := by
  intro fuel
  induction fuel with
  | zero => intro y; exact Nat.le_refl y
  | succ fuel ih =>
    intro y
    unfold vRunEnd
    split
    · exact Nat.le_trans (Nat.le_succ y) (ih (y + 1))
    · exact Nat.le_refl y

theorem vRunEnd_le (g : List (List Char)) (h x : Nat) :
    ∀ fuel y, y ≤ h → vRunEnd g h x fuel y ≤ h := by
  intro fuel
  induction fuel with
  | zero => intro y hy; exact hy
  | succ fuel ih =>
    intro y hy
    unfold vRunEnd
    split
    · next hc => exact ih (y + 1) hc.1
    · exact hy

theorem vRunEnd_line (g : List (List Char)) (h x : Nat) :
    ∀ fuel y t, y ≤ t → t < vRunEnd g h x fuel y →
      isSolidVLine (gridGet g x t) = true := by
  intro fuel
  induction fuel with
  | zero =>
    intro y t hyt ht
    exact absurd (Nat.lt_of_le_of_lt hyt ht) (Nat.lt_irrefl y)
  | succ fuel ih =>
    intro y t hyt ht
    rw [vRunEnd] at ht
    by_cases hc : y < h ∧ isSolidVLine (gridGet g x y)
    · rw [if_pos hc] at ht
      rcases Nat.eq_or_lt_of_le hyt with rfl | hlt
      · exact hc.2
      · exact ih (y + 1) t hlt ht
    · rw [if_neg hc] at ht
      exact absurd (Nat.lt_of_le_of_lt hyt ht) (Nat.lt_irrefl y)

theorem vRunEnd_gt (g : List (List Char)) (h x : Nat) :
    ∀ fuel y, y < h → isSolidVLine (gridGet g x y) = true → 1 ≤ fuel →
      y < vRunEnd g h x fuel y := by
  intro fuel
  cases fuel with
  | zero => intro y _ _ hf; exact absurd hf (by omega)
  | succ fuel =>
    intro y hy hl _
    unfold vRunEnd
    rw [if_pos ⟨hy, hl⟩]
    exact Nat.lt_of_lt_of_le (Nat.lt_succ_self y) (vRunEnd_ge g h x fuel (y + 1))

theorem vRunLoop_fst (g : List (List Char)) (w h x : Nat) :
    ∀ fuel y u, (vRunLoop g w h x fuel y u).1 = vRunEnd g h x fuel y := by
  intro fuel
  induction fuel with
  | zero => intro y u; rfl
  | succ fuel ih =>
    intro y u
    rw [vRunLoop, vRunEnd]
    split
    · exact ih (y + 1) _
    · rfl

theorem vRunLoop_snd (g : List (List Char)) (w h x : Nat) :
    ∀ fuel y u,
      (vRunLoop g w h x fuel y u).2
        = markCells u (runCellsV w x (y, vRunEnd g h x fuel y)) := by
  intro fuel
  induction fuel with
  | zero =>
    intro y u
    simp [vRunLoop, vRunEnd, runCellsV, markCells]
  | succ fuel ih =>
    intro y u
    rw [vRunLoop, vRunEnd]
    split
    · next hc =>
      rw [ih (y + 1) _]
      have hge : y + 1 ≤ vRunEnd g h x fuel (y + 1) := vRunEnd_ge g h x fuel (y + 1)
      have hsub : vRunEnd g h x fuel (y + 1) - y
          = (vRunEnd g h x fuel (y + 1) - (y + 1)) + 1 := by omega
      simp only [runCellsV, hsub, List.range'_succ, List.map_cons]
      rfl
    · simp [runCellsV, markCells]

theorem vScanCol_eq (g : List (List Char)) (w h x : Nat) :
    ∀ fuel y u s,
      vScanCol g w h x fuel y u s
        = (markCells u ((vColRuns g h x fuel y).flatMap (runCellsV w x)),
           s ++ (vColRuns g h x fuel y).flatMap (emitV x)) := by
  intro fuel
  induction fuel with
  | zero =>
    intro y u s
    simp [vScanCol, vColRuns, markCells]
  | succ fuel ih =>
    intro y u s
    rw [vScanCol, vColRuns]
    by_cases hy : y < h
    · rw [if_pos hy, if_pos hy]
      by_cases hline : isSolidVLine (gridGet g x y) = true
      · rw [if_pos hline, if_pos hline]
        have hfst := vRunLoop_fst g w h x h y u
        have hsnd := vRunLoop_snd g w h x h y u
        simp only [hfst, hsnd, ih, List.flatMap_cons, markCells_append]
        congr 1
        by_cases hlen : 2 ≤ vRunEnd g h x h y - y
        · rw [if_pos hlen, emitV, if_pos hlen, List.append_assoc]
        · rw [if_neg hlen, emitV, if_neg hlen, List.nil_append]
      · rw [if_neg hline, if_neg hline]
        exact ih (y + 1) u s
    · rw [if_neg hy, if_neg hy]
      simp [markCells]

theorem vPass_eq (g : List (List Char)) (w h : Nat) (u : List Bool)
    (s : List Char) :
    vPass g w h u s
      = (markCells u ((List.range w).flatMap
            (fun x => (vColRuns g h x h 0).flatMap (runCellsV w x))),
         s ++ (List.range w).flatMap
            (fun x => (vColRuns g h x h 0).flatMap (emitV x))) := by
  have hbody : (fun (st : List Bool × List Char) x => vScanCol g w h x h 0 st.1 st.2)
      = fun st x =>
          (markCells st.1 ((vColRuns g h x h 0).flatMap (runCellsV w x)),
           st.2 ++ (vColRuns g h x h 0).flatMap (emitV x)) := by
    funext st x
    exact vScanCol_eq g w h x h 0 st.1 st.2
  rw [vPass, hbody]
  exact foldl_emit_split_mark
    (fun x => (vColRuns g h x h 0).flatMap (runCellsV w x))
    (fun x => (vColRuns g h x h 0).flatMap (emitV x))
    (List.range w) u s

theorem vColRuns_sound (g : List (List Char)) (h x : Nat) :
    ∀ fuel y r, r ∈ vColRuns g h x fuel y →
      y ≤ r.1 ∧ r.1 < r.2 ∧ r.2 ≤ h ∧
        ∀ t, r.1 ≤ t → t < r.2 → isSolidVLine (gridGet g x t) = true := by
  intro fuel
  induction fuel with
  | zero => intro y r hr; exact absurd hr (List.not_mem_nil r)
  | succ fuel ih =>
    intro y r hr
    rw [vColRuns] at hr
    by_cases hy : y < h
    · rw [if_pos hy] at hr
      by_cases hline : isSolidVLine (gridGet g x y) = true
      · rw [if_pos hline] at hr
        rcases List.mem_cons.mp hr with rfl | hr
        · refine ⟨Nat.le_refl y, ?_, ?_, ?_⟩
          · exact vRunEnd_gt g h x h y hy hline (by omega)
          · exact vRunEnd_le g h x h y (Nat.le_of_lt hy)
          · intro t h1 h2; exact vRunEnd_line g h x h y t h1 h2
        · have := ih _ r hr
          exact ⟨Nat.le_trans (vRunEnd_ge g h x h y) this.1, this.2⟩
      · rw [if_neg hline] at hr
        have := ih _ r hr
        exact ⟨Nat.le_trans (Nat.le_succ y) this.1, this.2⟩
    · rw [if_neg hy] at hr
      exact absurd hr (List.not_mem_nil r)

theorem vColRuns_cover (g : List (List Char)) (h x : Nat) :
    ∀ fuel y t, h ≤ y + fuel → y ≤ t → t < h →
      (isSolidVLine (gridGet g x t) = true ↔
        ∃ r ∈ vColRuns g h x fuel y, r.1 ≤ t ∧ t < r.2) := by
  intro fuel
  induction fuel with
  | zero => intro y t hf hyt hth; omega
  | succ fuel ih =>
    intro y t hf hyt hth
    rw [vColRuns]
    have hy : y < h := Nat.lt_of_le_of_lt hyt hth
    rw [if_pos hy]
    by_cases hline : isSolidVLine (gridGet g x y) = true
    · rw [if_pos hline]
      set e := vRunEnd g h x h y with he
      have hye : y < e := vRunEnd_gt g h x h y hy hline (by omega)
      by_cases hte : t < e
      · constructor
        · intro _
          exact ⟨(y, e), List.mem_cons_self _ _, hyt, hte⟩
        · intro _
          exact vRunEnd_line g h x h y t hyt hte
      · have hiht := ih e t (by omega) (Nat.le_of_not_lt hte) hth
        constructor
        · intro hl
          rcases (hiht.mp hl) with ⟨r, hr, hcov⟩
          exact ⟨r, List.mem_cons_of_mem _ hr, hcov⟩
        · rintro ⟨r, hr, hcov⟩
          rcases List.mem_cons.mp hr with rfl | hr
          · exact absurd hcov.2 hte
          · exact hiht.mpr ⟨r, hr, hcov⟩
    · rw [if_neg hline]
      rcases Nat.eq_or_lt_of_le hyt with rfl | hlt
      · constructor
        · intro hl; exact absurd hl hline
        · rintro ⟨r, hr, hcov⟩
          have := (vColRuns_sound g h x fuel (y + 1) r hr).1
          omega
      · exact ih (y + 1) t (by omega) hlt hth

/-  Named components of the pass outputs. -/

def hCellsList (g : List (List Char)) (w h : Nat) : List Nat :=
  (List.range h).flatMap (fun y => (hRowRuns g w y w 0).flatMap (runCellsH w y))

def hOut (g : List (List Char)) (w h : Nat) : List Char :=
  (List.range h).flatMap (fun y => (hRowRuns g w y w 0).flatMap (emitH y))

def vCellsList (g : List (List Char)) (w h : Nat) : List Nat :=
  (List.range w).flatMap (fun x => (vColRuns g h x h 0).flatMap (runCellsV w x))

def vOut (g : List (List Char)) (w h : Nat) : List Char :=
  (List.range w).flatMap (fun x => (vColRuns g h x h 0).flatMap (emitV x))

def arrowCellsList (g : List (List Char)) (w h : Nat) : List Nat :=
  (List.range h).flatMap (fun y =>
    (List.range w).flatMap (fun x =>
      if isArrowHead (gridGet g x y) then [y * w + x] else []))

def arrowOutStr (g : List (List Char)) (w h : Nat) : List Char :=
  (List.range h).flatMap (fun y =>
    (List.range w).flatMap (fun x =>
      if isArrowHead (gridGet g x y) then arrowStr (gridGet g x y) x y else []))

def pointCellsList (g : List (List Char)) (w h : Nat) : List Nat :=
  (List.range h).flatMap (fun y =>
    (List.range w).flatMap (fun x =>
      if isPoint (gridGet g x y) then [y * w + x] else []))

def pointOutStr (g : List (List Char)) (w h : Nat) : List Char :=
  (List.range h).flatMap (fun y =>
    (List.range w).flatMap (fun x =>
      if isPoint (gridGet g x y) then pointStr (gridGet g x y) x y else []))

def textOutFrom (g : List (List Char)) (w h : Nat) (u : List Bool) : List Char :=
  (List.range h).flatMap (fun y =>
    (List.range w).flatMap (fun x =>
      if getUsed u (y * w + x) then []
      else if gridGet g x y ≠ ' ' ∧ ¬isVertex (gridGet g x y)
           then textStr (gridGet g x y) x y else []))

/-- All used-mask indices set by the four marking passes, in order. -/
def allCellsList (g : List (List Char)) (w h : Nat) : List Nat :=
  hCellsList g w h ++ vCellsList g w h ++ arrowCellsList g w h ++
    pointCellsList g w h

theorem arrowPass_eq (g : List (List Char)) (w h : Nat) (u : List Bool)
    (s : List Char) :
    arrowPass g w h u s
      = (markCells u (arrowCellsList g w h), s ++ arrowOutStr g w h) := by
  have hinner : ∀ (y : Nat) (st : List Bool × List Char),
      (List.range w).foldl
        (fun st x =>
          let c := gridGet g x y
          if isArrowHead c then
            (setUsed st.1 (y * w + x), st.2 ++ arrowStr c x y)
          else st) st
      = (markCells st.1
          ((List.range w).flatMap (fun x =>
            if isArrowHead (gridGet g x y) then [y * w + x] else [])),
         st.2 ++ (List.range w).flatMap (fun x =>
            if isArrowHead (gridGet g x y) then arrowStr (gridGet g x y) x y
            else [])) := by
    intro y st
    have hb : (fun (st : List Bool × List Char) x =>
          let c := gridGet g x y
          if isArrowHead c then
            (setUsed st.1 (y * w + x), st.2 ++ arrowStr c x y)
          else st)
        = fun st x =>
            (markCells st.1
              (if isArrowHead (gridGet g x y) then [y * w + x] else []),
             st.2 ++ (if isArrowHead (gridGet g x y)
                      then arrowStr (gridGet g x y) x y else [])) := by
      funext st x
      by_cases hc : isArrowHead (gridGet g x y) = true
      · simp [hc, markCells, setUsed]
      · simp [hc, markCells]
    rw [hb]
    exact foldl_emit_split_mark _ _ (List.range w) st.1 st.2
  have houter : (fun (st : List Bool × List Char) y =>
        (List.range w).foldl
          (fun st x =>
            let c := gridGet g x y
            if isArrowHead c then
              (setUsed st.1 (y * w + x), st.2 ++ arrowStr c x y)
            else st) st)
      = fun st y =>
          (markCells st.1
            ((List.range w).flatMap (fun x =>
              if isArrowHead (gridGet g x y) then [y * w + x] else [])),
           st.2 ++ (List.range w).flatMap (fun x =>
              if isArrowHead (gridGet g x y) then arrowStr (gridGet g x y) x y
              else [])) := by
    funext st y
    exact hinner y st
  rw [arrowPass, houter]
  exact foldl_emit_split_mark _ _ (List.range h) u s

theorem pointPass_eq (g : List (List Char)) (w h : Nat) (u : List Bool)
    (s : List Char) :
    pointPass g w h u s
      = (markCells u (pointCellsList g w h), s ++ pointOutStr g w h) := by
  have hinner : ∀ (y : Nat) (st : List Bool × List Char),
      (List.range w).foldl
        (fun st x =>
          let c := gridGet g x y
          if isPoint c then
            (setUsed st.1 (y * w + x), st.2 ++ pointStr c x y)
          else st) st
      = (markCells st.1
          ((List.range w).flatMap (fun x =>
            if isPoint (gridGet g x y) then [y * w + x] else [])),
         st.2 ++ (List.range w).flatMap (fun x =>
            if isPoint (gridGet g x y) then pointStr (gridGet g x y) x y
            else [])) := by
    intro y st
    have hb : (fun (st : List Bool × List Char) x =>
          let c := gridGet g x y
          if isPoint c then
            (setUsed st.1 (y * w + x), st.2 ++ pointStr c x y)
          else st)
        = fun st x =>
            (markCells st.1
              (if isPoint (gridGet g x y) then [y * w + x] else []),
             st.2 ++ (if isPoint (gridGet g x y)
                      then pointStr (gridGet g x y) x y else [])) := by
      funext st x
      by_cases hc : isPoint (gridGet g x y) = true
      · simp [hc, markCells, setUsed]
      · simp [hc, markCells]
    rw [hb]
    exact foldl_emit_split_mark _ _ (List.range w) st.1 st.2
  have houter : (fun (st : List Bool × List Char) y =>
        (List.range w).foldl
          (fun st x =>
            let c := gridGet g x y
            if isPoint c then
              (setUsed st.1 (y * w + x), st.2 ++ pointStr c x y)
            else st) st)
      = fun st y =>
          (markCells st.1
            ((List.range w).flatMap (fun x =>
              if isPoint (gridGet g x y) then [y * w + x] else [])),
           st.2 ++ (List.range w).flatMap (fun x =>
              if isPoint (gridGet g x y) then pointStr (gridGet g x y) x y
              else [])) := by
    funext st y
    exact hinner y st
  rw [pointPass, houter]
  exact foldl_emit_split_mark _ _ (List.range h) u s

theorem textPass_eq (g : List (List Char)) (w h : Nat) (u : List Bool)
    (s : List Char) :
    textPass g w h u s = (u, s ++ textOutFrom g w h u) := by
  have hinner : ∀ (y : Nat) (st : List Bool × List Char),
      (List.range w).foldl
        (fun st x =>
          if getUsed st.1 (y * w + x) then st
          else
            let c := gridGet g x y
            if c ≠ ' ' ∧ ¬isVertex c then (st.1, st.2 ++ textStr c x y)
            else st) st
      = (st.1, st.2 ++ (List.range w).flatMap (fun x =>
          if getUsed st.1 (y * w + x) then []
          else if gridGet g x y ≠ ' ' ∧ ¬isVertex (gridGet g x y)
               then textStr (gridGet g x y) x y else [])) := by
    intro y st
    have hb : (fun (st : List Bool × List Char) x =>
          if getUsed st.1 (y * w + x) then st
          else
            let c := gridGet g x y
            if c ≠ ' ' ∧ ¬isVertex c then (st.1, st.2 ++ textStr c x y)
            else st)
        = fun st x =>
            (st.1, st.2 ++
              (if getUsed st.1 (y * w + x) then []
               else if gridGet g x y ≠ ' ' ∧ ¬isVertex (gridGet g x y)
                    then textStr (gridGet g x y) x y else [])) := by
      funext st x
      show (if getUsed st.1 (y * w + x) then st
            else if gridGet g x y ≠ ' ' ∧ ¬isVertex (gridGet g x y)
                 then (st.1, st.2 ++ textStr (gridGet g x y) x y) else st) = _
      by_cases hu : getUsed st.1 (y * w + x) = true
      · rw [if_pos hu, if_pos hu, List.append_nil]
      · rw [if_neg hu, if_neg hu]
        by_cases hp : gridGet g x y ≠ ' ' ∧ ¬isVertex (gridGet g x y) = true
        · rw [if_pos hp, if_pos hp]
        · rw [if_neg hp, if_neg hp, List.append_nil]
    rw [hb]
    exact foldl_emit_ro
      (fun u x =>
        if getUsed u (y * w + x) then []
        else if gridGet g x y ≠ ' ' ∧ ¬isVertex (gridGet g x y)
             then textStr (gridGet g x y) x y else [])
      (List.range w) st.1 st.2
  have houter : (fun (st : List Bool × List Char) y =>
        (List.range w).foldl
          (fun st x =>
            if getUsed st.1 (y * w + x) then st
            else
              let c := gridGet g x y
              if c ≠ ' ' ∧ ¬isVertex c then (st.1, st.2 ++ textStr c x y)
              else st) st)
      = fun st y =>
          (st.1, st.2 ++ (List.range w).flatMap (fun x =>
            if getUsed st.1 (y * w + x) then []
            else if gridGet g x y ≠ ' ' ∧ ¬isVertex (gridGet g x y)
                 then textStr (gridGet g x y) x y else [])) := by
    funext st y
    exact hinner y st
  rw [textPass, houter]
  exact foldl_emit_ro
    (fun u y =>
      (List.range w).flatMap (fun x =>
        if getUsed u (y * w + x) then []
        else if gridGet g x y ≠ ' ' ∧ ¬isVertex (gridGet g x y)
             then textStr (gridGet g x y) x y else []))
    (List.range h) u s

/-- `render` decomposed into the header, the four pass outputs, and the
    text group, with the final used-mask made explicit. -/
theorem render_decomp (s : List Char) :
    render s =
      svgHeader ((widthOf s + 1) * SCALE) ((heightOf s + 1) * SCALE * ASPECT)
      ++ hOut (linesOf s) (widthOf s) (heightOf s)
      ++ vOut (linesOf s) (widthOf s) (heightOf s)
      ++ arrowOutStr (linesOf s) (widthOf s) (heightOf s)
      ++ pointOutStr (linesOf s) (widthOf s) (heightOf s)
      ++ "<g class=\"text\">\n".data
      ++ textOutFrom (linesOf s) (widthOf s) (heightOf s)
          (markCells (usedInit (heightOf s * widthOf s))
            (allCellsList (linesOf s) (widthOf s) (heightOf s)))
      ++ "</g>\n".data ++ "</svg>".data := by
  show (let processed := removeLeadingSpace s
        let lines := splitLines processed
        let width := gridWidth lines
        let height := gridHeight lines
        let svgWidth := (width + 1) * SCALE
        let svgHeight := (height + 1) * SCALE * ASPECT
        let svg0 := svgHeader svgWidth svgHeight
        let used0 := usedInit (height * width)
        let st1 := hPass lines width height used0 svg0
        let st2 := vPass lines width height st1.1 st1.2
        let st3 := arrowPass lines width height st2.1 st2.2
        let st4 := pointPass lines width height st3.1 st3.2
        let st5 := textPass lines width height st4.1
          (st4.2 ++ "<g class=\"text\">\n".data)
        st5.2 ++ "</g>\n".data ++ "</svg>".data) = _
  simp only [hPass_eq, vPass_eq, arrowPass_eq, pointPass_eq, textPass_eq]
  show svgHeader _ _ ++ _ ++ _ ++ _ ++ _ ++ "<g class=\"text\">\n".data ++ _
      ++ "</g>\n".data ++ "</svg>".data = _
  rw [allCellsList, markCells_append, markCells_append, markCells_append]
  rfl

/-  Flat-index arithmetic for the used-mask. -/

theorem cellIdx_lt {x y w h : Nat} (hx : x < w) (hy : y < h) :
    y * w + x < h * w := by
  have h1 : y * w + x < (y + 1) * w := by
    rw [Nat.succ_mul]
    omega
  exact Nat.lt_of_lt_of_le h1 (Nat.mul_le_mul_right w hy)

theorem cellIdx_inj {w x1 x2 y1 y2 : Nat} (hx1 : x1 < w) (hx2 : x2 < w)
    (hEq : y1 * w + x1 = y2 * w + x2) : x1 = x2 ∧ y1 = y2 := by
  have hw : 0 < w := Nat.lt_of_le_of_lt (Nat.zero_le x1) hx1
  have hmod : x1 = x2 := by
    have e1 : (x1 + w * y1) % w = x1 % w := Nat.add_mul_mod_self_left x1 w y1
    have e2 : (x2 + w * y2) % w = x2 % w := Nat.add_mul_mod_self_left x2 w y2
    have hcomm : x1 + w * y1 = x2 + w * y2 := by
      rw [Nat.mul_comm w y1, Nat.mul_comm w y2]
      omega
    rw [Nat.mod_eq_of_lt hx1] at e1
    rw [Nat.mod_eq_of_lt hx2] at e2
    rw [hcomm] at e1
    omega
  refine ⟨hmod, ?_⟩
  subst hmod
  have hmul : y1 * w = y2 * w := by omega
  exact Nat.eq_of_mul_eq_mul_right hw hmul

/-  Membership in the marked-cell lists. -/

theorem mem_hCellsList {g : List (List Char)} {w h j : Nat} :
    j ∈ hCellsList g w h ↔
      ∃ x y, x < w ∧ y < h ∧ j = y * w + x ∧
        isSolidHLine (gridGet g x y) = true := by
  rw [hCellsList]
  constructor
  · intro hj
    rcases List.mem_flatMap.mp hj with ⟨y, hy, hrow⟩
    rcases List.mem_flatMap.mp hrow with ⟨r, hr, hcell⟩
    rcases List.mem_map.mp hcell with ⟨t, ht, rfl⟩
    rcases List.mem_range'.mp ht with ⟨i, hi, rfl⟩
    have hs := hRowRuns_sound g w y w 0 r hr
    refine ⟨r.1 + 1 * i, y, ?_, List.mem_range.mp hy, rfl, ?_⟩
    · exact Nat.lt_of_lt_of_le (by omega) hs.2.2.1
    · exact hs.2.2.2 _ (by omega) (by omega)
  · rintro ⟨x, y, hx, hy, rfl, hline⟩
    refine List.mem_flatMap.mpr ⟨y, List.mem_range.mpr hy, ?_⟩
    rcases (hRowRuns_cover g w y w 0 x (by omega) (Nat.zero_le x) hx).mp hline
      with ⟨r, hr, hcov⟩
    refine List.mem_flatMap.mpr ⟨r, hr, ?_⟩
    refine List.mem_map.mpr ⟨x, ?_, rfl⟩
    exact List.mem_range'.mpr ⟨x - r.1, by omega, by omega⟩

theorem mem_vCellsList {g : List (List Char)} {w h j : Nat} :
    j ∈ vCellsList g w h ↔
      ∃ x y, x < w ∧ y < h ∧ j = y * w + x ∧
        isSolidVLine (gridGet g x y) = true := by
  rw [vCellsList]
  constructor
  · intro hj
    rcases List.mem_flatMap.mp hj with ⟨x, hx, hcol⟩
    rcases List.mem_flatMap.mp hcol with ⟨r, hr, hcell⟩
    rcases List.mem_map.mp hcell with ⟨t, ht, rfl⟩
    rcases List.mem_range'.mp ht with ⟨i, hi, rfl⟩
    have hs := vColRuns_sound g h x h 0 r hr
    refine ⟨x, r.1 + 1 * i, List.mem_range.mp hx, ?_, rfl, ?_⟩
    · exact Nat.lt_of_lt_of_le (by omega) hs.2.2.1
    · exact hs.2.2.2 _ (by omega) (by omega)
  · rintro ⟨x, y, hx, hy, rfl, hline⟩
    refine List.mem_flatMap.mpr ⟨x, List.mem_range.mpr hx, ?_⟩
    rcases (vColRuns_cover g h x h 0 y (by omega) (Nat.zero_le y) hy).mp hline
      with ⟨r, hr, hcov⟩
    refine List.mem_flatMap.mpr ⟨r, hr, ?_⟩
    refine List.mem_map.mpr ⟨y, ?_, rfl⟩
    exact List.mem_range'.mpr ⟨y - r.1, by omega, by omega⟩

theorem mem_arrowCellsList {g : List (List Char)} {w h j : Nat} :
    j ∈ arrowCellsList g w h ↔
      ∃ x y, x < w ∧ y < h ∧ j = y * w + x ∧
        isArrowHead (gridGet g x y) = true := by
  rw [arrowCellsList]
  constructor
  · intro hj
    rcases List.mem_flatMap.mp hj with ⟨y, hy, hrow⟩
    rcases List.mem_flatMap.mp hrow with ⟨x, hx, hcell⟩
    rcases mem_ite_singleton.mp hcell with ⟨ha, rfl⟩
    exact ⟨x, y, List.mem_range.mp hx, List.mem_range.mp hy, rfl, ha⟩
  · rintro ⟨x, y, hx, hy, rfl, ha⟩
    refine List.mem_flatMap.mpr ⟨y, List.mem_range.mpr hy,
      List.mem_flatMap.mpr ⟨x, List.mem_range.mpr hx, ?_⟩⟩
    exact mem_ite_singleton.mpr ⟨ha, rfl⟩

theorem mem_pointCellsList {g : List (List Char)} {w h j : Nat} :
    j ∈ pointCellsList g w h ↔
      ∃ x y, x < w ∧ y < h ∧ j = y * w + x ∧
        isPoint (gridGet g x y) = true := by
  rw [pointCellsList]
  constructor
  · intro hj
    rcases List.mem_flatMap.mp hj with ⟨y, hy, hrow⟩
    rcases List.mem_flatMap.mp hrow with ⟨x, hx, hcell⟩
    rcases mem_ite_singleton.mp hcell with ⟨ha, rfl⟩
    exact ⟨x, y, List.mem_range.mp hx, List.mem_range.mp hy, rfl, ha⟩
  · rintro ⟨x, y, hx, hy, rfl, ha⟩
    refine List.mem_flatMap.mpr ⟨y, List.mem_range.mpr hy,
      List.mem_flatMap.mpr ⟨x, List.mem_range.mpr hx, ?_⟩⟩
    exact mem_ite_singleton.mpr ⟨ha, rfl⟩

/-- The used-mask after the four marking passes reads exactly the
    character-class predicate `usedCell` on every in-grid cell. -/
theorem getUsed_final (g : List (List Char)) {w h x y : Nat}
    (hx : x < w) (hy : y < h) :
    getUsed (markCells (usedInit (h * w)) (allCellsList g w h)) (y * w + x)
      = usedCell g x y := by
  apply Bool.eq_iff_iff.mpr
  rw [getUsed_markCells]
  have hinit := getUsed_usedInit (h * w) (y * w + x)
  have hlen : (usedInit (h * w)).length = h * w := List.length_replicate _ _
  constructor
  · rintro (hfalse | ⟨hmem, _⟩)
    · rw [hinit] at hfalse; exact absurd hfalse (by simp)
    · rw [allCellsList] at hmem
      rw [usedCell]
      rcases List.mem_append.mp hmem with hmem | hp
      · rcases List.mem_append.mp hmem with hmem | ha
        · rcases List.mem_append.mp hmem with hH | hV
          · rcases mem_hCellsList.mp hH with ⟨x', y', hx', _, hEq, hl⟩
            rcases cellIdx_inj hx' hx hEq.symm with ⟨rfl, rfl⟩
            simp [hl]
          · rcases mem_vCellsList.mp hV with ⟨x', y', hx', _, hEq, hl⟩
            rcases cellIdx_inj hx' hx hEq.symm with ⟨rfl, rfl⟩
            simp [hl]
        · rcases mem_arrowCellsList.mp ha with ⟨x', y', hx', _, hEq, hl⟩
          rcases cellIdx_inj hx' hx hEq.symm with ⟨rfl, rfl⟩
          simp [hl]
      · rcases mem_pointCellsList.mp hp with ⟨x', y', hx', _, hEq, hl⟩
        rcases cellIdx_inj hx' hx hEq.symm with ⟨rfl, rfl⟩
        simp [hl]
  · intro hc
    refine Or.inr ⟨?_, ?_⟩
    · rw [allCellsList]
      rw [usedCell, Bool.or_eq_true, Bool.or_eq_true, Bool.or_eq_true] at hc
      rcases hc with ((hl | hl) | hl) | hl
      · exact List.mem_append.mpr (Or.inl (List.mem_append.mpr (Or.inl
          (List.mem_append.mpr (Or.inl
            (mem_hCellsList.mpr ⟨x, y, hx, hy, rfl, hl⟩))))))
      · exact List.mem_append.mpr (Or.inl (List.mem_append.mpr (Or.inl
          (List.mem_append.mpr (Or.inr
            (mem_vCellsList.mpr ⟨x, y, hx, hy, rfl, hl⟩))))))
      · exact List.mem_append.mpr (Or.inl (List.mem_append.mpr (Or.inr
          (mem_arrowCellsList.mpr ⟨x, y, hx, hy, rfl, hl⟩))))
      · exact List.mem_append.mpr (Or.inr
          (mem_pointCellsList.mpr ⟨x, y, hx, hy, rfl, hl⟩))
    · rw [hlen]
      exact cellIdx_lt hx hy

/-  The pass outputs in terms of the structured element lists. -/

theorem hOut_eq (g : List (List Char)) (w h : Nat) :
    hOut g w h
      = ((hLineElems g w h).map (fun r => hLineStr r.2.1 r.2.2 r.1)).flatten := by
  rw [hOut, hLineElems, hLinesAll, List.filter_flatMap, flatten_map_flatMap]
  apply List.flatMap_congr
  intro y _
  rw [List.filter_map, List.map_map]
  calc (hRowRuns g w y w 0).flatMap (emitH y)
      = (hRowRuns g w y w 0).flatMap
          (fun r => if 2 ≤ r.2 - r.1 then hLineStr r.1 r.2 y else []) := rfl
    _ = (((hRowRuns g w y w 0).filter (fun r => 2 ≤ r.2 - r.1)).map
          (fun r => hLineStr r.1 r.2 y)).flatten :=
        flatMap_emit_filter _ _ _
    _ = _ := rfl

theorem vOut_eq (g : List (List Char)) (w h : Nat) :
    vOut g w h
      = ((vLineElems g w h).map (fun r => vLineStr r.1 r.2.1 r.2.2)).flatten := by
  rw [vOut, vLineElems, vLinesAll, List.filter_flatMap, flatten_map_flatMap]
  apply List.flatMap_congr
  intro x _
  rw [List.filter_map, List.map_map]
  calc (vColRuns g h x h 0).flatMap (emitV x)
      = (vColRuns g h x h 0).flatMap
          (fun r => if 2 ≤ r.2 - r.1 then vLineStr x r.1 r.2 else []) := rfl
    _ = (((vColRuns g h x h 0).filter (fun r => 2 ≤ r.2 - r.1)).map
          (fun r => vLineStr x r.1 r.2)).flatten :=
        flatMap_emit_filter _ _ _
    _ = _ := rfl

theorem arrowOut_eq (g : List (List Char)) (w h : Nat) :
    arrowOutStr g w h
      = ((arrowElems g w h).map (fun e => arrowStr e.1 e.2.1 e.2.2)).flatten := by
  rw [arrowOutStr, arrowElems, flatten_map_flatMap]
  apply List.flatMap_congr
  intro y _
  rw [flatten_map_flatMap]
  apply List.flatMap_congr
  intro x _
  rw [ite_singleton_map_flatten]

theorem pointOut_eq (g : List (List Char)) (w h : Nat) :
    pointOutStr g w h
      = ((pointElems g w h).map (fun e => pointStr e.1 e.2.1 e.2.2)).flatten := by
  rw [pointOutStr, pointElems, flatten_map_flatMap]
  apply List.flatMap_congr
  intro y _
  rw [flatten_map_flatMap]
  apply List.flatMap_congr
  intro x _
  rw [ite_singleton_map_flatten]

theorem textOut_final (g : List (List Char)) (w h : Nat) :
    textOutFrom g w h (markCells (usedInit (h * w)) (allCellsList g w h))
      = ((textElems g w h).map (fun e => textStr e.1 e.2.1 e.2.2)).flatten := by
  rw [textOutFrom, textElems, flatten_map_flatMap]
  apply List.flatMap_congr
  intro y hy
  rw [flatten_map_flatMap]
  apply List.flatMap_congr
  intro x hx
  rw [ite_singleton_map_flatten,
    getUsed_final g (List.mem_range.mp hx) (List.mem_range.mp hy)]
  by_cases hu : usedCell g x y = true
  · have hcond : ¬(¬usedCell g x y ∧
        (gridGet g x y ≠ ' ' ∧ ¬isVertex (gridGet g x y))) :=
      fun hc => hc.1 hu
    rw [if_pos hu, if_neg hcond]
  · rw [if_neg hu]
    by_cases hp : gridGet g x y ≠ ' ' ∧ ¬isVertex (gridGet g x y) = true
    · rw [if_pos hp, if_pos ⟨hu, hp⟩]
    · rw [if_neg hp, if_neg (fun hc => hp hc.2)]

/-- Backbone theorem: `render` equals the assembly of the structured
    element lists (headers, line runs of length ≥ 2, arrowheads, points,
    and leftover text cells). -/
theorem render_eq_structured (s : List Char) :
    render s = renderStructured s := by
  rw [render_decomp]
  simp only [renderStructured]
  rw [hOut_eq, vOut_eq, arrowOut_eq, pointOut_eq, textOut_final]

/-  The dedent step: specification-level minimum and supporting lemmas. -/

/-- The minimum of `spaceCount` over the non-blank lines, `none` when no
    non-blank line exists (the specification's notion of the dedent
    minimum, with no sentinel). -/
def minNB : List (List Char) → Option Nat
  | [] => none
  | l :: r =>
    if blankLine l then minNB r
    else some (match minNB r with
      | none => spaceCount l
      | some m => min (spaceCount l) m)

theorem minLead_minNB (ls : List (List Char)) :
    minLead ls = match minNB ls with
      | none => 999999
      | some m => min 999999 m := by
  have haux : ∀ (l : List (List Char)) (a : Nat),
      l.foldl (fun m l => if blankLine l then m
        else if spaceCount l < m then spaceCount l else m) a
      = match minNB l with
        | none => a
        | some m => min a m := by
    intro l
    induction l with
    | nil => intro a; rfl
    | cons l r ih =>
      intro a
      rw [List.foldl_cons, minNB]
      by_cases hb : blankLine l = true
      · rw [if_pos hb, if_pos hb, ih]
      · rw [if_neg hb, if_neg hb]
        have hstep : (if spaceCount l < a then spaceCount l else a)
            = min a (spaceCount l) := by
          by_cases hlt : spaceCount l < a
          · rw [if_pos hlt]; omega
          · rw [if_neg hlt]; omega
        rw [hstep, ih]
        cases hr : minNB r with
        | none => rfl
        | some m =>
          show min (min a (spaceCount l)) m = min a (min (spaceCount l) m)
          omega
  exact haux ls 999999

theorem minNB_none (ls : List (List Char)) :
    minNB ls = none ↔ ∀ l ∈ ls, blankLine l = true := by
  induction ls with
  | nil => simp [minNB]
  | cons l r ih =>
    rw [minNB]
    by_cases hb : blankLine l = true
    · rw [if_pos hb]
      constructor
      · intro hn l' hl'
        rcases List.mem_cons.mp hl' with rfl | hl'
        · exact hb
        · exact (ih.mp hn) l' hl'
      · intro hall
        exact ih.mpr (fun l' hl' => hall l' (List.mem_cons_of_mem _ hl'))
    · rw [if_neg hb]
      constructor
      · intro hn; exact absurd hn (by simp)
      · intro hall
        exact absurd (hall l (List.mem_cons_self _ _)) hb

theorem minNB_le {ls : List (List Char)} {m : Nat} (hm : minNB ls = some m) :
    ∀ l ∈ ls, blankLine l = false → m ≤ spaceCount l := by
  induction ls generalizing m with
  | nil => intro l hl; exact absurd hl (List.not_mem_nil l)
  | cons l0 r ih =>
    intro l hl hnb
    rw [minNB] at hm
    by_cases hb : blankLine l0 = true
    · rw [if_pos hb] at hm
      rcases List.mem_cons.mp hl with rfl | hl
      · rw [hnb] at hb; exact absurd hb (by simp)
      · exact ih hm l hl hnb
    · rw [if_neg hb] at hm
      rcases List.mem_cons.mp hl with rfl | hl
      · cases hr : minNB r with
        | none => rw [hr] at hm; simp at hm; omega
        | some k => rw [hr] at hm; simp at hm; omega
      · cases hr : minNB r with
        | none =>
          have : blankLine l = true := (minNB_none r).mp hr l hl
          rw [hnb] at this; exact absurd this (by simp)
        | some k =>
          have hk := ih hr l hl hnb
          rw [hr] at hm; simp at hm; omega

theorem minNB_attained {ls : List (List Char)} {m : Nat}
    (hm : minNB ls = some m) :
    ∃ l ∈ ls, blankLine l = false ∧ spaceCount l = m := by
  induction ls generalizing m with
  | nil => simp [minNB] at hm
  | cons l0 r ih =>
    rw [minNB] at hm
    by_cases hb : blankLine l0 = true
    · rw [if_pos hb] at hm
      rcases ih hm with ⟨l, hl, hrest⟩
      exact ⟨l, List.mem_cons_of_mem _ hl, hrest⟩
    · rw [if_neg hb] at hm
      cases hr : minNB r with
      | none =>
        rw [hr] at hm
        simp at hm
        exact ⟨l0, List.mem_cons_self _ _, Bool.eq_false_iff.mpr hb, hm⟩
      | some k =>
        rw [hr] at hm
        simp at hm
        by_cases hle : spaceCount l0 ≤ k
        · refine ⟨l0, List.mem_cons_self _ _, Bool.eq_false_iff.mpr hb, ?_⟩
          omega
        · rcases ih hr with ⟨l, hl, hnb, hsc⟩
          refine ⟨l, List.mem_cons_of_mem _ hl, hnb, ?_⟩
          omega

/-  splitLines structure lemmas. -/

theorem splitLines_ne_nil (s : List Char) : splitLines s ≠ [] := by
  induction s with
  | nil => simp [splitLines]
  | cons c rest ih =>
    rw [splitLines]
    by_cases hc : c = '\n'
    · simp [hc]
    · rw [if_neg hc]
      cases hr : splitLines rest with
      | nil => exact absurd hr ih
      | cons l ls => simp

theorem splitLines_no_nl (s : List Char) :
    ∀ l ∈ splitLines s, '\n' ∉ l := by
  induction s with
  | nil =>
    intro l hl
    rw [splitLines] at hl
    rcases List.mem_cons.mp hl with rfl | hl
    · exact List.not_mem_nil _
    · exact absurd hl (List.not_mem_nil l)
  | cons c rest ih =>
    intro l hl
    rw [splitLines] at hl
    by_cases hc : c = '\n'
    · rw [if_pos hc] at hl
      rcases List.mem_cons.mp hl with rfl | hl
      · exact List.not_mem_nil _
      · exact ih l hl
    · rw [if_neg hc] at hl
      cases hr : splitLines rest with
      | nil => exact absurd hr (splitLines_ne_nil rest)
      | cons l0 ls =>
        rw [hr] at hl
        rcases List.mem_cons.mp hl with rfl | hl
        · intro hmem
          rcases List.mem_cons.mp hmem with h1 | h1
          · exact hc h1.symm
          · exact ih l0 (hr ▸ List.mem_cons_self _ _) h1
        · exact ih l (hr ▸ List.mem_cons_of_mem _ hl)

theorem splitLines_single {s : List Char} (h : '\n' ∉ s) :
    splitLines s = [s] := by
  induction s with
  | nil => rfl
  | cons c rest ih =>
    rw [splitLines]
    have hc : c ≠ '\n' := fun hcc => h (hcc ▸ List.mem_cons_self _ _)
    rw [if_neg hc, ih (fun hm => h (List.mem_cons_of_mem _ hm))]

theorem splitLines_append_nl {a : List Char} (t : List Char)
    (ha : '\n' ∉ a) :
    splitLines (a ++ '\n' :: t) = a :: splitLines t := by
  induction a with
  | nil => simp [splitLines]
  | cons c a ih =>
    have hc : c ≠ '\n' := fun hcc => ha (hcc ▸ List.mem_cons_self _ _)
    rw [List.cons_append, splitLines, if_neg hc,
      ih (fun hm => ha (List.mem_cons_of_mem _ hm))]

theorem splitLines_flatten_nl :
    ∀ L : List (List Char), (∀ l ∈ L, '\n' ∉ l) →
      splitLines ((L.map (fun l => l ++ ['\n'])).flatten) = L ++ [[]] := by
  intro L
  induction L with
  | nil => intro _; rfl
  | cons l r ih =>
    intro hno
    rw [List.map_cons, List.flatten_cons, List.append_assoc, List.singleton_append,
      splitLines_append_nl _ (hno l (List.mem_cons_self _ _)),
      ih (fun l' hl' => hno l' (List.mem_cons_of_mem _ hl'))]
    rfl

/-  spaceCount and blankness under drop. -/

theorem spaceCount_drop :
    ∀ (m : Nat) (l : List Char), m ≤ spaceCount l →
      spaceCount (l.drop m) = spaceCount l - m ∧
        blankLine (l.drop m) = blankLine l := by
  intro m
  induction m with
  | zero => intro l _; simp
  | succ m ih =>
    intro l hm
    cases l with
    | nil => simp [spaceCount] at hm
    | cons c r =>
      rw [spaceCount] at hm
      by_cases hc : (c = ' ' || c = '\t') = true
      · rw [if_pos hc] at hm
        have hmr : m ≤ spaceCount r := by omega
        have hws : jsWhitespace c = true := by
          have hor : c = ' ' ∨ c = '\t' := by simpa using hc
          rcases hor with rfl | rfl <;> decide
        rcases ih r hmr with ⟨h1, h2⟩
        refine ⟨?_, ?_⟩
        · rw [List.drop_succ_cons, h1]
          show spaceCount r - m = spaceCount (c :: r) - (m + 1)
          simp only [spaceCount, if_pos hc]
          omega
        · rw [List.drop_succ_cons, h2]
          show blankLine r = blankLine (c :: r)
          simp only [blankLine, List.all_cons, hws, Bool.true_and]
      · rw [if_neg hc] at hm; omega

theorem blank_drop_of_blank :
    ∀ (m : Nat) (l : List Char), blankLine l = true →
      blankLine (l.drop m) = true := by
  intro m
  induction m with
  | zero => intro l h; simpa using h
  | succ m ih =>
    intro l h
    cases l with
    | nil => simpa using h
    | cons c r =>
      rw [List.drop_succ_cons]
      rw [blankLine, List.all_cons, Bool.and_eq_true] at h
      exact ih r h.2

theorem minNB_map_drop {ls : List (List Char)} {m : Nat}
    (hle : ∀ l ∈ ls, blankLine l = false → m ≤ spaceCount l) :
    minNB (ls.map (fun l => l.drop m)) = (minNB ls).map (fun k => k - m) := by
  induction ls with
  | nil => rfl
  | cons l r ih =>
    rw [List.map_cons, minNB, minNB]
    have hrec := ih (fun l' hl' => hle l' (List.mem_cons_of_mem _ hl'))
    by_cases hb : blankLine l = true
    · rw [if_pos hb, if_pos (blank_drop_of_blank m l hb), hrec]
    · have hml : m ≤ spaceCount l :=
        hle l (List.mem_cons_self _ _) (Bool.eq_false_iff.mpr hb)
      rcases spaceCount_drop m l hml with ⟨hsc, hbl⟩
      have hbd : ¬blankLine (l.drop m) = true := by
        rw [hbl]; exact hb
      rw [if_neg hb, if_neg hbd, hrec]
      cases hr : minNB r with
      | none => simp [hsc]
      | some k =>
        have hmk : m ≤ k := by
          rcases minNB_attained hr with ⟨l', hl', hnb, hsck⟩
          have := hle l' (List.mem_cons_of_mem _ hl') hnb
          omega
        simp only [Option.map, hsc]
        congr 1
        omega

theorem minNB_append_blank (A : List (List Char)) :
    minNB (A ++ [[]]) = minNB A := by
  induction A with
  | nil => rfl
  | cons l r ih =>
    rw [List.cons_append, minNB, minNB, ih]

/-  Claim-level definitions for the dedent step. -/

/-- The dedent as claim C4 states it:  minimum of the leading space/tab
    counts over the non-blank lines; unchanged when the minimum is zero
    or there is no non-blank line; otherwise every line is stripped of
    exactly that many leading characters (saturating) and re-joined with
    a newline after each line.  (Follows the claim's words; to be
    compared with `removeLeadingSpace` from the source.) -/
def removeLeadingSpaceClaim (str : List Char) : List Char :=
  match minNB (splitLines str) with
  | none => str
  | some m =>
    if m = 0 then str
    else ((splitLines str).map (fun l => l.drop m ++ ['\n'])).flatten

/-- Claim C4 amended: identical to `removeLeadingSpaceClaim` except that a
    minimum of 999999 or more (the source's sentinel initial value, never
    beaten by such lines) also returns the input unchanged. -/
def removeLeadingSpaceAmended (str : List Char) : List Char :=
  match minNB (splitLines str) with
  | none => str
  | some m =>
    if m = 0 ∨ 999999 ≤ m then str
    else ((splitLines str).map (fun l => l.drop m ++ ['\n'])).flatten

/-- One line of 999999 spaces followed by a letter: its leading-space
    count equals the sentinel, so the source never dedents it. -/
def c4Input : List Char := List.replicate 999999 ' ' ++ ['a']

theorem c4Input_no_nl : '\n' ∉ c4Input := by
  intro hmem
  rcases List.mem_append.mp hmem with hmem | hmem
  · have := (List.mem_replicate.mp hmem).2
    exact absurd this (by decide)
  · rcases List.mem_cons.mp hmem with h | h
    · exact absurd h (by decide)
    · exact absurd h (List.not_mem_nil _)

theorem spaceCount_replicate (l : List Char) :
    ∀ n : Nat, spaceCount (List.replicate n ' ' ++ l) = n + spaceCount l := by
  intro n
  induction n with
  | zero => simp
  | succ n ih =>
    rw [List.replicate_succ, List.cons_append]
    show (if (' ' = ' ' || ' ' = '\t') then
        spaceCount (List.replicate n ' ' ++ l) + 1 else 0) = n + 1 + spaceCount l
    rw [if_pos (by decide), ih]
    omega

theorem c4Input_blank_false : blankLine c4Input = false := by
  rw [c4Input, blankLine, List.all_append]
  have h1 : List.all ['a'] jsWhitespace = false := by decide
  rw [h1, Bool.and_false]

theorem c4Input_spaceCount : spaceCount c4Input = 999999 := by
  rw [c4Input, spaceCount_replicate]
  have : spaceCount ['a'] = 0 := by decide
  rw [this]

theorem c4Input_minNB : minNB (splitLines c4Input) = some 999999 := by
  rw [splitLines_single c4Input_no_nl]
  show minNB [c4Input] = some 999999
  rw [minNB, if_neg (by rw [c4Input_blank_false]; simp), minNB]
  rw [c4Input_spaceCount]

theorem c4Input_source_unchanged : removeLeadingSpace c4Input = c4Input := by
  simp only [removeLeadingSpace, minLead_minNB, c4Input_minNB]
  rw [if_pos (Or.inr (by decide))]

theorem c4Input_claim_strips :
    removeLeadingSpaceClaim c4Input = ['a', '\n'] := by
  rw [removeLeadingSpaceClaim, c4Input_minNB]
  show (if (999999 : Nat) = 0 then c4Input
      else ((splitLines c4Input).map (fun l => l.drop 999999 ++ ['\n'])).flatten)
    = ['a', '\n']
  rw [if_neg (by decide), splitLines_single c4Input_no_nl,
    List.map_cons, List.map_nil, List.flatten_cons, List.flatten_nil,
    List.append_nil]
  rw [c4Input]
  have hdrop : (List.replicate 999999 ' ' ++ ['a']).drop 999999 = ['a'] := by
    have hd := List.drop_left (List.replicate 999999 ' ') ['a']
    rwa [List.length_replicate] at hd
  rw [hdrop]
  rfl

/-- C4 (counterexample): on a single line of 999999 leading spaces the
    source's sentinel is never beaten, so `removeLeadingSpace` returns the
    input unchanged, while the claim's description (strip whenever the
    minimum is nonzero and a non-blank line exists) would strip. -/
theorem c4_counterexample :
    removeLeadingSpace c4Input ≠ removeLeadingSpaceClaim c4Input := by
  rw [c4Input_source_unchanged, c4Input_claim_strips]
  intro h
  have hlen := congrArg List.length h
  rw [c4Input, List.length_append, List.length_replicate] at hlen
  simp at hlen

/-- C4 (amended): the dedent step equals the claim's description with one
    amendment — a minimum of 999999 or more is treated like the sentinel
    and returns the input unchanged. -/
theorem c4_dedent_amended (s : List Char) :
    removeLeadingSpace s = removeLeadingSpaceAmended s := by
  simp only [removeLeadingSpace, removeLeadingSpaceAmended, minLead_minNB]
  cases hm : minNB (splitLines s) with
  | none =>
    simp only [hm]
    rw [if_pos (Or.inr trivial)]
  | some m =>
    simp only [hm]
    by_cases hc : m = 0 ∨ 999999 ≤ m
    · have hcond : min 999999 m = 0 ∨ min 999999 m = 999999 := by
        rcases hc with rfl | hbig
        · exact Or.inl (min_eq_right (Nat.zero_le _))
        · exact Or.inr (min_eq_left hbig)
      rw [if_pos hcond, if_pos hc]
    · have hle : m ≤ 999999 := by
        by_cases h9 : 999999 ≤ m
        · exact absurd (Or.inr h9) hc
        · omega
      have hminv : min 999999 m = m := min_eq_right hle
      have hcond : ¬(min 999999 m = 0 ∨ min 999999 m = 999999) := by
        rw [hminv]
        rintro (h0 | h9)
        · exact hc (Or.inl h0)
        · exact hc (Or.inr (by omega))
      rw [if_neg hcond, if_neg hc, hminv]

/-- C5: the dedent step is idempotent — after one application the minimum
    leading-whitespace count of the non-blank lines is zero (or the input
    was returned unchanged), so a second application changes nothing. -/
theorem removeLeadingSpace_idem (s : List Char) :
    removeLeadingSpace (removeLeadingSpace s) = removeLeadingSpace s := by
  by_cases hc : minLead (splitLines s) = 0 ∨ minLead (splitLines s) = 999999
  · have h1 : removeLeadingSpace s = s := by
      simp only [removeLeadingSpace]
      rw [if_pos hc]
    rw [h1]
    exact h1
  · have hm : ∃ m, minNB (splitLines s) = some m ∧ 0 < m ∧ m < 999999 := by
      rw [minLead_minNB] at hc
      cases hmm : minNB (splitLines s) with
      | none =>
        rw [hmm] at hc
        exact absurd (Or.inr rfl) hc
      | some m =>
        simp only [hmm] at hc
        refine ⟨m, rfl, ?_, ?_⟩
        · rcases Nat.eq_zero_or_pos m with rfl | hpos
          · exact absurd (Or.inl (min_eq_right (Nat.zero_le _))) hc
          · exact hpos
        · by_cases h9 : 999999 ≤ m
          · exact absurd (Or.inr (min_eq_left h9)) hc
          · omega
    rcases hm with ⟨m, hm, hm0, hm9⟩
    have hml : minLead (splitLines s) = m := by
      rw [minLead_minNB]
      simp only [hm]
      exact min_eq_right (Nat.le_of_lt hm9)
    have h1 : removeLeadingSpace s
        = ((splitLines s).map (fun l => l.drop m ++ ['\n'])).flatten := by
      simp only [removeLeadingSpace]
      rw [if_neg hc, hml]
    rw [h1]
    have hnl : ∀ l ∈ (splitLines s).map (fun l => l.drop m), '\n' ∉ l := by
      intro l hl hmem
      rcases List.mem_map.mp hl with ⟨l0, hl0, rfl⟩
      exact splitLines_no_nl s l0 hl0 (List.mem_of_mem_drop hmem)
    have hsplit :
        splitLines (((splitLines s).map (fun l => l.drop m ++ ['\n'])).flatten)
          = (splitLines s).map (fun l => l.drop m) ++ [[]] := by
      have h := splitLines_flatten_nl ((splitLines s).map (fun l => l.drop m)) hnl
      rw [List.map_map] at h
      exact h
    have hminNB2 :
        minNB (splitLines
            (((splitLines s).map (fun l => l.drop m ++ ['\n'])).flatten))
          = some 0 := by
      rw [hsplit, minNB_append_blank, minNB_map_drop (minNB_le hm), hm]
      simp [Option.map, Nat.sub_self]
    simp only [removeLeadingSpace]
    rw [if_pos (Or.inl ?_)]
    rw [minLead_minNB]
    simp only [hminNB2]
    exact min_eq_right (Nat.zero_le _)

/-  The escaping loop. -/

theorem escLoop_flatMap (s : List Char) :
    ∀ acc : List Char, escLoop s acc = acc ++ s.flatMap escChunk := by
  induction s with
  | nil => intro acc; simp [escLoop]
  | cons c r ih =>
    intro acc
    rw [escLoop, ih, List.flatMap_cons, List.append_assoc]

/-- C6: `escapeHTMLEntities` maps each character independently (in input
    order), sending `&`, `<`, `>`, `"` to their entities and leaving every
    other character unchanged. -/
theorem escape_entities_spec (s : List Char) :
    escapeHTMLEntities s = s.flatMap escChunk ∧
    escChunk '&' = "&amp;".data ∧ escChunk '<' = "&lt;".data ∧
    escChunk '>' = "&gt;".data ∧ escChunk '"' = "&quot;".data ∧
    (∀ c : Char, c ≠ '&' → c ≠ '<' → c ≠ '>' → c ≠ '"' → escChunk c = [c]) := by
  refine ⟨?_, by decide, by decide, by decide, by decide, ?_⟩
  · rw [escapeHTMLEntities, escLoop_flatMap, List.nil_append]
  · intro c h1 h2 h3 h4
    rw [escChunk, if_neg h1, if_neg h2, if_neg h3, if_neg h4]

/-- Witness for C6 at concrete inputs. -/
theorem escape_entities_spec_witness :
    escapeHTMLEntities "a<b&\"".data = ("a<b&\"".data).flatMap escChunk ∧
    escChunk 'x' = ['x'] :=
  ⟨(escape_entities_spec "a<b&\"".data).1,
   (escape_entities_spec "a<b&\"".data).2.2.2.2.2 'x'
     (by decide) (by decide) (by decide) (by decide)⟩

/-  Substring occurrence utilities for the concrete output claims. -/

/-- `hasLead p s`: the pattern `p` is an initial segment of `s`. -/
def hasLead : List Char → List Char → Bool
  | [], _ => true
  | _ :: _, [] => false
  | a :: p, b :: s => a = b && hasLead p s

/-- Number of positions of `s` (suffixes, the empty one included) at
    which the pattern `p` begins. -/
def countOccur (p : List Char) : List Char → Nat
  | [] => if hasLead p [] then 1 else 0
  | s@(_ :: rest) => (if hasLead p s then 1 else 0) + countOccur p rest

/-- `containsStr p s`: `p` occurs contiguously somewhere in `s`. -/
def containsStr (p : List Char) : List Char → Bool
  | [] => hasLead p []
  | s@(_ :: rest) => hasLead p s || containsStr p rest

theorem hasLead_self_append (p : List Char) :
    ∀ b : List Char, hasLead p (p ++ b) = true := by
  induction p with
  | nil => intro b; rfl
  | cons a p ih =>
    intro b
    rw [List.cons_append, hasLead]
    simp [ih b]

theorem containsStr_of_decomp (p : List Char) :
    ∀ a b : List Char, containsStr p (a ++ p ++ b) = true := by
  intro a
  induction a with
  | nil =>
    intro b
    rw [List.nil_append]
    cases hp : p ++ b with
    | nil =>
      have hpnil : p = [] := by
        cases p with
        | nil => rfl
        | cons x xs => simp at hp
      subst hpnil
      simp only [List.nil_append] at hp
      subst hp
      rfl
    | cons c r =>
      have hlead : hasLead p (c :: r) = true := by
        rw [← hp]
        exact hasLead_self_append p b
      have hstep : containsStr p (c :: r)
          = (hasLead p (c :: r) || containsStr p r) := rfl
      rw [hstep, hlead, Bool.true_or]
  | cons c a ih =>
    intro b
    rw [List.cons_append, List.cons_append, containsStr, ih b, Bool.or_true]

/-- Input of claim C8. -/
def c8Input : List Char := "* -> o".data

set_option maxRecDepth 100000 in
/-- C8: `render "* -> o"` yields exactly one filled circle, one hollow
    circle, one polygon rotated by 0 degrees, no `<line>` element and no
    `<text>` element — the `-`, `>` and space cells vanish. -/
theorem c8_star_arrow_point :
    countOccur "<circle".data (render c8Input) = 2 ∧
    countOccur "r=\"6\" fill=\"black\"/>".data (render c8Input) = 1 ∧
    countOccur "r=\"6\" fill=\"white\" stroke=\"black\"/>".data (render c8Input) = 1 ∧
    countOccur "<polygon".data (render c8Input) = 1 ∧
    countOccur "transform=\"rotate(0,".data (render c8Input) = 1 ∧
    countOccur "<line".data (render c8Input) = 0 ∧
    countOccur "<text".data (render c8Input) = 0 := by
  decide

set_option maxRecDepth 100000 in
/-- C9: `render ""` is exactly the fixed header with width 8, height 16,
    viewBox "0 0 8 16", an empty text group and the closing tag; the empty
    string yields grid width 0 and grid height 0, and no line, polygon,
    circle or text element is emitted. -/
theorem c9_render_empty :
    render [] =
      ("<svg xmlns=\"http://www.w3.org/2000/svg\" version=\"1.1\""
        ++ " width=\"8\" height=\"16\" viewBox=\"0 0 8 16\""
        ++ " class=\"diagram\" text-anchor=\"middle\" font-family=\"monospace\""
        ++ " font-size=\"13px\" stroke-linecap=\"round\">\n"
        ++ "<g class=\"text\">\n</g>\n</svg>").data ∧
    gridWidth (linesOf []) = 0 ∧ gridHeight (linesOf []) = 0 ∧
    countOccur "<line".data (render []) = 0 ∧
    countOccur "<polygon".data (render []) = 0 ∧
    countOccur "<circle".data (render []) = 0 ∧
    countOccur "<text".data (render []) = 0 := by
  decide

/-  Coverage of a grid cell by the emitted elements. -/

/-- Cell (x, y) lies inside an emitted horizontal `<line>` element. -/
def coveredByHLine (s : List Char) (x y : Nat) : Bool :=
  (hLineElems (linesOf s) (widthOf s) (heightOf s)).any
    (fun r => r.1 = y && r.2.1 ≤ x && x < r.2.2)

/-- Cell (x, y) lies inside an emitted vertical `<line>` element. -/
def coveredByVLine (s : List Char) (x y : Nat) : Bool :=
  (vLineElems (linesOf s) (widthOf s) (heightOf s)).any
    (fun r => r.1 = x && r.2.1 ≤ y && y < r.2.2)

/-- Cell (x, y) produces an emitted `<polygon>` arrowhead element. -/
def coveredByArrow (s : List Char) (x y : Nat) : Bool :=
  (arrowElems (linesOf s) (widthOf s) (heightOf s)).any
    (fun e => e.2.1 = x && e.2.2 = y)

/-- Cell (x, y) produces an emitted `<circle>` point element. -/
def coveredByPoint (s : List Char) (x y : Nat) : Bool :=
  (pointElems (linesOf s) (widthOf s) (heightOf s)).any
    (fun e => e.2.1 = x && e.2.2 = y)

/-- Cell (x, y) produces an emitted `<text>` element. -/
def coveredByText (s : List Char) (x y : Nat) : Bool :=
  (textElems (linesOf s) (widthOf s) (heightOf s)).any
    (fun e => e.2.1 = x && e.2.2 = y)

theorem mem_arrowElems {g : List (List Char)} {w h : Nat}
    {e : Char × Nat × Nat} :
    e ∈ arrowElems g w h ↔
      ∃ x y, x < w ∧ y < h ∧ isArrowHead (gridGet g x y) = true ∧
        e = (gridGet g x y, x, y) := by
  rw [arrowElems]
  constructor
  · intro hj
    rcases List.mem_flatMap.mp hj with ⟨y, hy, hrow⟩
    rcases List.mem_flatMap.mp hrow with ⟨x, hx, hcell⟩
    rcases mem_ite_singleton.mp hcell with ⟨ha, rfl⟩
    exact ⟨x, y, List.mem_range.mp hx, List.mem_range.mp hy, ha, rfl⟩
  · rintro ⟨x, y, hx, hy, ha, rfl⟩
    refine List.mem_flatMap.mpr ⟨y, List.mem_range.mpr hy,
      List.mem_flatMap.mpr ⟨x, List.mem_range.mpr hx, ?_⟩⟩
    exact mem_ite_singleton.mpr ⟨ha, rfl⟩

theorem mem_pointElems {g : List (List Char)} {w h : Nat}
    {e : Char × Nat × Nat} :
    e ∈ pointElems g w h ↔
      ∃ x y, x < w ∧ y < h ∧ isPoint (gridGet g x y) = true ∧
        e = (gridGet g x y, x, y) := by
  rw [pointElems]
  constructor
  · intro hj
    rcases List.mem_flatMap.mp hj with ⟨y, hy, hrow⟩
    rcases List.mem_flatMap.mp hrow with ⟨x, hx, hcell⟩
    rcases mem_ite_singleton.mp hcell with ⟨ha, rfl⟩
    exact ⟨x, y, List.mem_range.mp hx, List.mem_range.mp hy, ha, rfl⟩
  · rintro ⟨x, y, hx, hy, ha, rfl⟩
    refine List.mem_flatMap.mpr ⟨y, List.mem_range.mpr hy,
      List.mem_flatMap.mpr ⟨x, List.mem_range.mpr hx, ?_⟩⟩
    exact mem_ite_singleton.mpr ⟨ha, rfl⟩

theorem mem_textElems {g : List (List Char)} {w h : Nat}
    {e : Char × Nat × Nat} :
    e ∈ textElems g w h ↔
      ∃ x y, x < w ∧ y < h ∧
        (¬usedCell g x y ∧ (gridGet g x y ≠ ' ' ∧ ¬isVertex (gridGet g x y))) ∧
        e = (gridGet g x y, x, y) := by
  rw [textElems]
  constructor
  · intro hj
    rcases List.mem_flatMap.mp hj with ⟨y, hy, hrow⟩
    rcases List.mem_flatMap.mp hrow with ⟨x, hx, hcell⟩
    rcases mem_ite_singleton.mp hcell with ⟨ha, rfl⟩
    exact ⟨x, y, List.mem_range.mp hx, List.mem_range.mp hy, ha, rfl⟩
  · rintro ⟨x, y, hx, hy, ha, rfl⟩
    refine List.mem_flatMap.mpr ⟨y, List.mem_range.mpr hy,
      List.mem_flatMap.mpr ⟨x, List.mem_range.mpr hx, ?_⟩⟩
    exact mem_ite_singleton.mpr ⟨ha, rfl⟩

/-- Elimination for horizontal-line coverage: the covered cell lies in a
    run of length at least 2 all of whose cells are line characters. -/
theorem coveredByHLine_elim {s : List Char} {x y : Nat}
    (h : coveredByHLine s x y = true) :
    ∃ a b, a ≤ x ∧ x < b ∧ 2 ≤ b - a ∧
      ∀ t, a ≤ t → t < b →
        isSolidHLine (gridGet (linesOf s) t y) = true := by
  rcases List.any_eq_true.mp h with ⟨r, hr, hcond⟩
  rcases List.mem_filter.mp hr with ⟨hall, hlen⟩
  rcases List.mem_flatMap.mp hall with ⟨y', _, hmap⟩
  rcases List.mem_map.mp hmap with ⟨run, hrun, rfl⟩
  simp only [Bool.and_eq_true, decide_eq_true_eq] at hcond hlen
  rcases hcond with ⟨⟨hy', hax⟩, hxb⟩
  have hs := hRowRuns_sound (linesOf s) (widthOf s) y' (widthOf s) 0 run hrun
  refine ⟨run.1, run.2, hax, hxb, hlen, fun t h1 h2 => ?_⟩
  rw [← hy']
  exact hs.2.2.2 t h1 h2

/-- Elimination for vertical-line coverage. -/
theorem coveredByVLine_elim {s : List Char} {x y : Nat}
    (h : coveredByVLine s x y = true) :
    ∃ a b, a ≤ y ∧ y < b ∧ 2 ≤ b - a ∧
      ∀ t, a ≤ t → t < b →
        isSolidVLine (gridGet (linesOf s) x t) = true := by
  rcases List.any_eq_true.mp h with ⟨r, hr, hcond⟩
  rcases List.mem_filter.mp hr with ⟨hall, hlen⟩
  rcases List.mem_flatMap.mp hall with ⟨x', _, hmap⟩
  rcases List.mem_map.mp hmap with ⟨run, hrun, rfl⟩
  simp only [Bool.and_eq_true, decide_eq_true_eq] at hcond hlen
  rcases hcond with ⟨⟨hx', hay⟩, hyb⟩
  have hs := vColRuns_sound (linesOf s) (heightOf s) x' (heightOf s) 0 run hrun
  refine ⟨run.1, run.2, hay, hyb, hlen, fun t h1 h2 => ?_⟩
  rw [← hx']
  exact hs.2.2.2 t h1 h2

theorem coveredByArrow_elim {s : List Char} {x y : Nat}
    (h : coveredByArrow s x y = true) :
    isArrowHead (gridGet (linesOf s) x y) = true := by
  rcases List.any_eq_true.mp h with ⟨e, he, hcond⟩
  rcases mem_arrowElems.mp he with ⟨x', y', _, _, ha, rfl⟩
  simp only [Bool.and_eq_true, decide_eq_true_eq] at hcond
  rcases hcond with ⟨rfl, rfl⟩
  exact ha

theorem coveredByPoint_elim {s : List Char} {x y : Nat}
    (h : coveredByPoint s x y = true) :
    isPoint (gridGet (linesOf s) x y) = true := by
  rcases List.any_eq_true.mp h with ⟨e, he, hcond⟩
  rcases mem_pointElems.mp he with ⟨x', y', _, _, ha, rfl⟩
  simp only [Bool.and_eq_true, decide_eq_true_eq] at hcond
  rcases hcond with ⟨rfl, rfl⟩
  exact ha

theorem coveredByText_elim {s : List Char} {x y : Nat}
    (h : coveredByText s x y = true) :
    usedCell (linesOf s) x y = false ∧
      gridGet (linesOf s) x y ≠ ' ' ∧
      isVertex (gridGet (linesOf s) x y) = false := by
  rcases List.any_eq_true.mp h with ⟨e, he, hcond⟩
  rcases mem_textElems.mp he with ⟨x', y', _, _, ⟨hu, hsp, hv⟩, rfl⟩
  simp only [Bool.and_eq_true, decide_eq_true_eq] at hcond
  rcases hcond with ⟨rfl, rfl⟩
  exact ⟨Bool.eq_false_iff.mpr hu, hsp, Bool.eq_false_iff.mpr hv⟩

/-  Character-class algebra. -/

theorem arrow_char_classes {c : Char} (h : isArrowHead c = true) :
    isSolidHLine c = false ∧ isSolidVLine c = false ∧ isPoint c = false := by
  have hc : c = '>' ∨ c = '<' ∨ c = '^' ∨ c = 'v' ∨ c = 'V' := by
    simpa [isArrowHead, or_assoc] using h
  rcases hc with rfl | rfl | rfl | rfl | rfl <;> decide

theorem point_char_classes {c : Char} (h : isPoint c = true) :
    isSolidHLine c = false ∧ isSolidVLine c = false ∧ isArrowHead c = false := by
  have hc : c = 'o' ∨ c = '*' := by simpa [isPoint] using h
  rcases hc with rfl | rfl <;> decide

theorem hv_char_plus {c : Char} (h1 : isSolidHLine c = true)
    (h2 : isSolidVLine c = true) : c = '+' := by
  have hc : c = '-' ∨ c = '+' := by simpa [isSolidHLine] using h1
  rcases hc with rfl | rfl
  · exact absurd h2 (by decide)
  · rfl

/-- C3: a lone `-` (maximal horizontal run of length 1) is covered by no
    emitted horizontal `<line>` element and produces no `<text>` element,
    and symmetrically for a lone `|` and vertical lines: the character
    vanishes from the output. -/
theorem c3_lone_line_vanishes (s : List Char) (x y : Nat) :
    (gridGet (linesOf s) x y = '-' →
      isSolidHLine (gridGet (linesOf s) (x + 1) y) = false →
      (x = 0 ∨ isSolidHLine (gridGet (linesOf s) (x - 1) y) = false) →
      coveredByHLine s x y = false ∧ coveredByText s x y = false) ∧
    (gridGet (linesOf s) x y = '|' →
      isSolidVLine (gridGet (linesOf s) x (y + 1)) = false →
      (y = 0 ∨ isSolidVLine (gridGet (linesOf s) x (y - 1)) = false) →
      coveredByVLine s x y = false ∧ coveredByText s x y = false) := by
  constructor
  · intro hc hr hl
    constructor
    · apply Bool.eq_false_iff.mpr
      intro hcov
      rcases coveredByHLine_elim hcov with ⟨a, b, hax, hxb, hlen, hcells⟩
      by_cases hx1 : x + 1 < b
      · exact absurd (hcells (x + 1) (by omega) hx1) (by simp [hr])
      · rcases hl with rfl | hl
        · omega
        · exact absurd (hcells (x - 1) (by omega) (by omega)) (by simp [hl])
    · apply Bool.eq_false_iff.mpr
      intro hcov
      rcases coveredByText_elim hcov with ⟨hu, _, _⟩
      have hused : usedCell (linesOf s) x y = true := by
        simp only [usedCell, hc]
        decide
      rw [hu] at hused
      exact absurd hused (by simp)
  · intro hc hr hl
    constructor
    · apply Bool.eq_false_iff.mpr
      intro hcov
      rcases coveredByVLine_elim hcov with ⟨a, b, hay, hyb, hlen, hcells⟩
      by_cases hy1 : y + 1 < b
      · exact absurd (hcells (y + 1) (by omega) hy1) (by simp [hr])
      · rcases hl with rfl | hl
        · omega
        · exact absurd (hcells (y - 1) (by omega) (by omega)) (by simp [hl])
    · apply Bool.eq_false_iff.mpr
      intro hcov
      rcases coveredByText_elim hcov with ⟨hu, _, _⟩
      have hused : usedCell (linesOf s) x y = true := by
        simp only [usedCell, hc]
        decide
      rw [hu] at hused
      exact absurd hused (by simp)

set_option maxRecDepth 100000 in
/-- Witness for C3 at the one-character diagrams "-" and "|". -/
theorem c3_lone_line_vanishes_witness :
    (coveredByHLine "-".data 0 0 = false ∧ coveredByText "-".data 0 0 = false) ∧
    (coveredByVLine "|".data 0 0 = false ∧ coveredByText "|".data 0 0 = false) :=
  ⟨(c3_lone_line_vanishes "-".data 0 0).1 (by decide) (by decide) (Or.inl rfl),
   (c3_lone_line_vanishes "|".data 0 0).2 (by decide) (by decide) (Or.inl rfl)⟩

/-- Input of the C2 counterexample. -/
def c2Input : List Char := "-+\n |".data

set_option maxRecDepth 100000 in
/-- C2 (counterexample): in the diagram "-+" over " |", the `+` cell at
    grid position (1, 0) is covered by the emitted horizontal `<line>` of
    row 0 and also by the emitted vertical `<line>` of column 1 (the
    output indeed contains two `<line>` elements), so a cell can
    contribute to two emitted visual primitives. -/
theorem c2_counterexample :
    coveredByHLine c2Input 1 0 = true ∧ coveredByVLine c2Input 1 0 = true ∧
    countOccur "<line".data (render c2Input) = 2 := by
  decide

/-- C2 (amended): emitted arrowheads, points and text elements never
    share a cell with any other emitted primitive; the only overlap the
    renderer can produce is a cell lying in both a horizontal and a
    vertical `<line>` run, and such a cell is necessarily a `+`. -/
theorem c2_amended (s : List Char) (x y : Nat) :
    (coveredByArrow s x y = true →
      coveredByHLine s x y = false ∧ coveredByVLine s x y = false ∧
      coveredByPoint s x y = false ∧ coveredByText s x y = false) ∧
    (coveredByPoint s x y = true →
      coveredByHLine s x y = false ∧ coveredByVLine s x y = false ∧
      coveredByArrow s x y = false ∧ coveredByText s x y = false) ∧
    (coveredByText s x y = true →
      coveredByHLine s x y = false ∧ coveredByVLine s x y = false ∧
      coveredByArrow s x y = false ∧ coveredByPoint s x y = false) ∧
    (coveredByHLine s x y = true → coveredByVLine s x y = true →
      gridGet (linesOf s) x y = '+') := by
  have covH_char : coveredByHLine s x y = true →
      isSolidHLine (gridGet (linesOf s) x y) = true := by
    intro h
    rcases coveredByHLine_elim h with ⟨a, b, hax, hxb, _, hcells⟩
    exact hcells x hax hxb
  have covV_char : coveredByVLine s x y = true →
      isSolidVLine (gridGet (linesOf s) x y) = true := by
    intro h
    rcases coveredByVLine_elim h with ⟨a, b, hay, hyb, _, hcells⟩
    exact hcells y hay hyb
  refine ⟨?_, ?_, ?_, ?_⟩
  · intro ha
    have hc := coveredByArrow_elim ha
    rcases arrow_char_classes hc with ⟨h1, h2, h3⟩
    refine ⟨?_, ?_, ?_, ?_⟩
    · exact Bool.eq_false_iff.mpr (fun hcov => absurd (covH_char hcov) (by simp [h1]))
    · exact Bool.eq_false_iff.mpr (fun hcov => absurd (covV_char hcov) (by simp [h2]))
    · exact Bool.eq_false_iff.mpr
        (fun hcov => absurd (coveredByPoint_elim hcov) (by simp [h3]))
    · apply Bool.eq_false_iff.mpr
      intro hcov
      rcases coveredByText_elim hcov with ⟨hu, _, _⟩
      have hused : usedCell (linesOf s) x y = true := by simp [usedCell, hc]
      rw [hu] at hused
      exact absurd hused (by simp)
  · intro hp
    have hc := coveredByPoint_elim hp
    rcases point_char_classes hc with ⟨h1, h2, h3⟩
    refine ⟨?_, ?_, ?_, ?_⟩
    · exact Bool.eq_false_iff.mpr (fun hcov => absurd (covH_char hcov) (by simp [h1]))
    · exact Bool.eq_false_iff.mpr (fun hcov => absurd (covV_char hcov) (by simp [h2]))
    · exact Bool.eq_false_iff.mpr
        (fun hcov => absurd (coveredByArrow_elim hcov) (by simp [h3]))
    · apply Bool.eq_false_iff.mpr
      intro hcov
      rcases coveredByText_elim hcov with ⟨hu, _, _⟩
      have hused : usedCell (linesOf s) x y = true := by simp [usedCell, hc]
      rw [hu] at hused
      exact absurd hused (by simp)
  · intro ht
    rcases coveredByText_elim ht with ⟨hu, _, _⟩
    refine ⟨?_, ?_, ?_, ?_⟩
    · apply Bool.eq_false_iff.mpr
      intro hcov
      have hused : usedCell (linesOf s) x y = true := by
        simp [usedCell, covH_char hcov]
      rw [hu] at hused
      exact absurd hused (by simp)
    · apply Bool.eq_false_iff.mpr
      intro hcov
      have hused : usedCell (linesOf s) x y = true := by
        simp [usedCell, covV_char hcov]
      rw [hu] at hused
      exact absurd hused (by simp)
    · apply Bool.eq_false_iff.mpr
      intro hcov
      have hused : usedCell (linesOf s) x y = true := by
        simp [usedCell, coveredByArrow_elim hcov]
      rw [hu] at hused
      exact absurd hused (by simp)
    · apply Bool.eq_false_iff.mpr
      intro hcov
      have hused : usedCell (linesOf s) x y = true := by
        simp [usedCell, coveredByPoint_elim hcov]
      rw [hu] at hused
      exact absurd hused (by simp)
  · intro hh hv
    exact hv_char_plus (covH_char hh) (covV_char hv)

set_option maxRecDepth 100000 in
/-- Witness for C2 (amended) at a concrete crossing cell. -/
theorem c2_amended_witness : gridGet (linesOf c2Input) 1 0 = '+' :=
  (c2_amended c2Input 1 0).2.2.2 (by decide) (by decide)

/-  Locating an element's string inside the render output. -/

theorem containsStr_of_parts (p u a b : List Char)
    (hu : u = a ++ p ++ b) : containsStr p u = true := by
  subst hu
  exact containsStr_of_decomp p a b

theorem flatten_map_mem_decomp {α : Type} (F : α → List Char) {e : α} :
    ∀ l : List α, e ∈ l →
      ∃ pre post, (l.map F).flatten = pre ++ F e ++ post := by
  intro l
  induction l with
  | nil => intro h; exact absurd h (List.not_mem_nil e)
  | cons a l ih =>
    intro h
    rcases List.mem_cons.mp h with rfl | h
    · exact ⟨[], (l.map F).flatten, by simp⟩
    · rcases ih h with ⟨pre, post, hp⟩
      exact ⟨F a ++ pre, post, by simp [hp, List.append_assoc]⟩

theorem exists_around_pointStr {s : List Char} {x y : Nat}
    (hx : x < widthOf s) (hy : y < heightOf s)
    (hp : isPoint (gridGet (linesOf s) x y) = true) :
    ∃ PRE POST,
      render s = PRE ++ pointStr (gridGet (linesOf s) x y) x y ++ POST := by
  have hmem : (gridGet (linesOf s) x y, x, y)
      ∈ pointElems (linesOf s) (widthOf s) (heightOf s) :=
    mem_pointElems.mpr ⟨x, y, hx, hy, hp, rfl⟩
  rcases flatten_map_mem_decomp (fun e => pointStr e.1 e.2.1 e.2.2) _ hmem
    with ⟨pre, post, hdec⟩
  refine ⟨svgHeader ((widthOf s + 1) * SCALE) ((heightOf s + 1) * SCALE * ASPECT)
      ++ hOut (linesOf s) (widthOf s) (heightOf s)
      ++ vOut (linesOf s) (widthOf s) (heightOf s)
      ++ arrowOutStr (linesOf s) (widthOf s) (heightOf s) ++ pre,
    post ++ "<g class=\"text\">\n".data
      ++ textOutFrom (linesOf s) (widthOf s) (heightOf s)
          (markCells (usedInit (heightOf s * widthOf s))
            (allCellsList (linesOf s) (widthOf s) (heightOf s)))
      ++ "</g>\n".data ++ "</svg>".data, ?_⟩
  rw [render_decomp, pointOut_eq, hdec]
  simp only [List.append_assoc]

theorem exists_around_arrowStr {s : List Char} {x y : Nat}
    (hx : x < widthOf s) (hy : y < heightOf s)
    (ha : isArrowHead (gridGet (linesOf s) x y) = true) :
    ∃ PRE POST,
      render s = PRE ++ arrowStr (gridGet (linesOf s) x y) x y ++ POST := by
  have hmem : (gridGet (linesOf s) x y, x, y)
      ∈ arrowElems (linesOf s) (widthOf s) (heightOf s) :=
    mem_arrowElems.mpr ⟨x, y, hx, hy, ha, rfl⟩
  rcases flatten_map_mem_decomp (fun e => arrowStr e.1 e.2.1 e.2.2) _ hmem
    with ⟨pre, post, hdec⟩
  refine ⟨svgHeader ((widthOf s + 1) * SCALE) ((heightOf s + 1) * SCALE * ASPECT)
      ++ hOut (linesOf s) (widthOf s) (heightOf s)
      ++ vOut (linesOf s) (widthOf s) (heightOf s) ++ pre,
    post ++ pointOutStr (linesOf s) (widthOf s) (heightOf s)
      ++ "<g class=\"text\">\n".data
      ++ textOutFrom (linesOf s) (widthOf s) (heightOf s)
          (markCells (usedInit (heightOf s * widthOf s))
            (allCellsList (linesOf s) (widthOf s) (heightOf s)))
      ++ "</g>\n".data ++ "</svg>".data, ?_⟩
  rw [render_decomp, arrowOut_eq, hdec]
  simp only [List.append_assoc]

theorem pointStr_split (c : Char) (x y : Nat) :
    ∃ tail, pointStr c x y
      = ("<circle cx=\"".data ++ natStr ((x + 1) * 8) ++ "\" cy=\"".data
          ++ natStr ((y + 1) * 16)) ++ tail := by
  have h1 : (x + 1) * SCALE = (x + 1) * 8 := by simp only [SCALE]
  have h2 : (y + 1) * SCALE * ASPECT = (y + 1) * 16 := by
    simp only [SCALE, ASPECT]
    omega
  simp only [pointStr, h1, h2]
  by_cases hc : c = '*'
  · rw [if_pos hc]
    refine ⟨"\" r=\"6\" fill=\"black\"/>\n".data, ?_⟩
    simp only [List.append_assoc]
  · rw [if_neg hc]
    refine ⟨"\" r=\"6\" fill=\"white\" stroke=\"black\"/>\n".data, ?_⟩
    simp only [List.append_assoc]

theorem arrowStr_split (c : Char) (x y : Nat) :
    ∃ head, arrowStr c x y
      = head ++ (",".data ++ natStr ((x + 1) * 8) ++ ",".data
          ++ natStr ((y + 1) * 16) ++ ")\"/>".data) ++ "\n".data := by
  have h1 : (x + 1) * SCALE = (x + 1) * 8 := by simp only [SCALE]
  have h2 : (y + 1) * SCALE * ASPECT = (y + 1) * 16 := by
    simp only [SCALE, ASPECT]
    omega
  simp only [arrowStr, h1, h2]
  refine ⟨"<polygon points=\"".data ++ natStr ((x + 1) * 8 + 8) ++ ",".data
      ++ natStr ((y + 1) * 16) ++ " ".data ++ natStr ((x + 1) * 8 - 4)
      ++ ",".data ++ natStr ((y + 1) * 16 - 3) ++ " ".data
      ++ natStr ((x + 1) * 8 - 4) ++ ",".data ++ natStr ((y + 1) * 16 + 3)
      ++ "\" fill=\"black\" transform=\"rotate(".data
      ++ natStr (arrowAngle c), ?_⟩
  simp only [List.append_assoc, List.cons_append, List.nil_append]

/-- C7: the emitted width and height (and viewBox, which repeats them)
    equal `(gridWidth+1)*8` and `(gridHeight+1)*16`, and the pixel center
    of grid cell (x, y) — as used by the circle centers of point cells and
    the rotation centers of arrowhead cells — is `((x+1)*8, (y+1)*16)`. -/
theorem c7_geometry (s : List Char) :
    (∃ rest, render s
      = svgHeader ((widthOf s + 1) * 8) ((heightOf s + 1) * 16) ++ rest) ∧
    (∀ x y, x < widthOf s → y < heightOf s →
      isPoint (gridGet (linesOf s) x y) = true →
      containsStr ("<circle cx=\"".data ++ natStr ((x + 1) * 8)
        ++ "\" cy=\"".data ++ natStr ((y + 1) * 16)) (render s) = true) ∧
    (∀ x y, x < widthOf s → y < heightOf s →
      isArrowHead (gridGet (linesOf s) x y) = true →
      containsStr (",".data ++ natStr ((x + 1) * 8) ++ ",".data
        ++ natStr ((y + 1) * 16) ++ ")\"/>".data) (render s) = true) := by
  have hW : (widthOf s + 1) * SCALE = (widthOf s + 1) * 8 := by
    simp only [SCALE]
  have hH : (heightOf s + 1) * SCALE * ASPECT = (heightOf s + 1) * 16 := by
    simp only [SCALE, ASPECT]
    omega
  refine ⟨?_, ?_, ?_⟩
  · refine ⟨hOut (linesOf s) (widthOf s) (heightOf s)
      ++ vOut (linesOf s) (widthOf s) (heightOf s)
      ++ arrowOutStr (linesOf s) (widthOf s) (heightOf s)
      ++ pointOutStr (linesOf s) (widthOf s) (heightOf s)
      ++ "<g class=\"text\">\n".data
      ++ textOutFrom (linesOf s) (widthOf s) (heightOf s)
          (markCells (usedInit (heightOf s * widthOf s))
            (allCellsList (linesOf s) (widthOf s) (heightOf s)))
      ++ "</g>\n".data ++ "</svg>".data, ?_⟩
    rw [render_decomp, hW, hH]
    simp only [List.append_assoc]
  · intro x y hx hy hp
    rcases exists_around_pointStr hx hy hp with ⟨PRE, POST, hr⟩
    rcases pointStr_split (gridGet (linesOf s) x y) x y with ⟨tail, hsplit⟩
    refine containsStr_of_parts _ _ PRE (tail ++ POST) ?_
    rw [hr, hsplit]
    simp only [List.append_assoc]
  · intro x y hx hy ha
    rcases exists_around_arrowStr hx hy ha with ⟨PRE, POST, hr⟩
    rcases arrowStr_split (gridGet (linesOf s) x y) x y with ⟨head, hsplit⟩
    refine containsStr_of_parts _ _ (PRE ++ head) ("\n".data ++ POST) ?_
    rw [hr, hsplit]
    simp only [List.append_assoc]

set_option maxRecDepth 100000 in
/-- Witness for C7 on the one-point diagram "*": the point cell (0, 0)
    has pixel center (8, 16). -/
theorem c7_geometry_witness :
    containsStr ("<circle cx=\"".data ++ natStr 8 ++ "\" cy=\"".data
      ++ natStr 16) (render "*".data) = true :=
  (c7_geometry "*".data).2.1 0 0 (by decide) (by decide) (by decide)

/-  C10: appending a trailing newline.  Facts about the grid of
    `s ++ ['\n']` versus the grid of `s`. -/

theorem getD_append_left {α : Type} (A B : List α) {i : Nat}
    (h : i < A.length) (d : α) : (A ++ B).getD i d = A.getD i d := by
  rw [List.getD_eq_getElem?_getD, List.getD_eq_getElem?_getD,
    List.getElem?_append_left h]

theorem getD_concat_self {α : Type} (A : List α) (x d : α) :
    (A ++ [x]).getD A.length d = x := by
  rw [List.getD_eq_getElem?_getD, List.getElem?_append_right (le_refl _)]
  simp

theorem gridGet_append_empty {ls : List (List Char)} {x y : Nat}
    (hy : y < ls.length) : gridGet (ls ++ [[]]) x y = gridGet ls x y := by
  rw [gridGet, gridGet, getD_append_left _ _ hy]

theorem gridGet_blank_row {lines : List (List Char)} {y : Nat}
    (h : lines.getD y [] = []) (x : Nat) : gridGet lines x y = ' ' := by
  rw [gridGet, h]
  rfl

theorem gridWidth_append_empty (A : List (List Char)) :
    gridWidth (A ++ [[]]) = gridWidth A := by
  rw [gridWidth, gridWidth, List.foldl_append]
  simp

theorem gridHeight_snoc_empty (A : List (List Char)) :
    gridHeight (A ++ [[]]) = A.length := by
  have hlen : (A ++ [[]]).length = A.length + 1 := by simp
  have hcond : 0 < (A ++ [[]]).length ∧
      (A ++ [[]]).getD ((A ++ [[]]).length - 1) [] = [] := by
    refine ⟨by omega, ?_⟩
    have h2 : (A ++ [[]]).length - 1 = A.length := by omega
    rw [h2]
    exact getD_concat_self A [] []
  rw [gridHeight, if_pos hcond, hlen]
  omega

theorem gridHeight_of_last_ne {A : List (List Char)}
    (h : A.getLast? ≠ some []) : gridHeight A = A.length := by
  by_cases hA : A = []
  · subst hA; rfl
  · rw [gridHeight, if_neg ?_]
    rintro ⟨hpos, hget⟩
    apply h
    rw [List.getLast?_eq_getElem?]
    rw [List.getD_eq_getElem?_getD] at hget
    cases hx : A[A.length - 1]? with
    | none =>
      rw [List.getElem?_eq_none_iff] at hx
      omega
    | some v =>
      rw [hx] at hget
      exact congrArg some hget

theorem minLead_append_blank (A : List (List Char)) :
    minLead (A ++ [[]]) = minLead A := by
  rw [minLead_minNB, minLead_minNB, minNB_append_blank]

theorem splitLines_append_nl_end (s : List Char) :
    splitLines (s ++ ['\n']) = splitLines s ++ [[]] := by
  induction s with
  | nil => rfl
  | cons c rest ih =>
    rw [List.cons_append, splitLines]
    by_cases hc : c = '\n'
    · rw [if_pos hc, ih]
      rw [splitLines, if_pos hc, List.cons_append]
    · rw [if_neg hc, ih]
      rw [splitLines, if_neg hc]
      cases hr : splitLines rest with
      | nil => exact absurd hr (splitLines_ne_nil rest)
      | cons l ls =>
        rw [List.cons_append]
        rfl

theorem getLast?_cons_of_ne_nil {α : Type} (x : α) {l : List α}
    (h : l ≠ []) : (x :: l).getLast? = l.getLast? := by
  cases l with
  | nil => exact absurd rfl h
  | cons a t => rw [List.getLast?_cons_cons]

theorem splitLines_last_ne_nil :
    ∀ s : List Char, s ≠ [] → s.getLast? ≠ some '\n' →
      (splitLines s).getLast? ≠ some [] := by
  intro s
  induction s with
  | nil => intro h; exact absurd rfl h
  | cons c rest ih =>
    intro _ hlast
    by_cases hrest : rest = []
    · subst hrest
      have hc : c ≠ '\n' := by
        intro hcc
        exact hlast (by rw [hcc]; rfl)
      rw [splitLines, if_neg hc]
      show ([[c]] : List (List Char)).getLast? ≠ some []
      simp
    · have hlast' : rest.getLast? ≠ some '\n' := by
        rw [getLast?_cons_of_ne_nil c hrest] at hlast
        exact hlast
      have ihr := ih hrest hlast'
      rw [splitLines]
      by_cases hc : c = '\n'
      · rw [if_pos hc, getLast?_cons_of_ne_nil _ (splitLines_ne_nil rest)]
        exact ihr
      · rw [if_neg hc]
        cases hr : splitLines rest with
        | nil => exact absurd hr (splitLines_ne_nil rest)
        | cons l ls =>
          cases hls : ls with
          | nil =>
            show ([c :: l] : List (List Char)).getLast? ≠ some []
            simp
          | cons l2 ls2 =>
            show ((c :: l) :: l2 :: ls2).getLast? ≠ some []
            rw [List.getLast?_cons_cons]
            have hswap : (l2 :: ls2).getLast? = (splitLines rest).getLast? := by
              rw [hr, hls, List.getLast?_cons_cons]
            rw [hswap]
            exact ihr

/-  Congruence: the structured output only depends on the grid through
    `gridGet` at the rows below the height, and on the width/height. -/

theorem hRunEnd_congr {g1 g2 : List (List Char)} {w y : Nat}
    (hrow : ∀ x, gridGet g1 x y = gridGet g2 x y) :
    ∀ fuel x, hRunEnd g1 w y fuel x = hRunEnd g2 w y fuel x := by
  intro fuel
  induction fuel with
  | zero => intro x; rfl
  | succ fuel ih =>
    intro x
    rw [hRunEnd, hRunEnd, hrow x, ih (x + 1)]

theorem hRowRuns_congr {g1 g2 : List (List Char)} {w y : Nat}
    (hrow : ∀ x, gridGet g1 x y = gridGet g2 x y) :
    ∀ fuel x, hRowRuns g1 w y fuel x = hRowRuns g2 w y fuel x := by
  intro fuel
  induction fuel with
  | zero => intro x; rfl
  | succ fuel ih =>
    intro x
    rw [hRowRuns, hRowRuns, hrow x, hRunEnd_congr hrow w x, ih, ih]

theorem vRunEnd_congr {g1 g2 : List (List Char)} {h x : Nat}
    (hcol : ∀ y, y < h → gridGet g1 x y = gridGet g2 x y) :
    ∀ fuel y, vRunEnd g1 h x fuel y = vRunEnd g2 h x fuel y := by
  intro fuel
  induction fuel with
  | zero => intro y; rfl
  | succ fuel ih =>
    intro y
    rw [vRunEnd, vRunEnd]
    by_cases hy : y < h
    · rw [hcol y hy, ih (y + 1)]
    · rw [if_neg (fun hc => hy hc.1), if_neg (fun hc => hy hc.1)]

theorem vColRuns_congr {g1 g2 : List (List Char)} {h x : Nat}
    (hcol : ∀ y, y < h → gridGet g1 x y = gridGet g2 x y) :
    ∀ fuel y, vColRuns g1 h x fuel y = vColRuns g2 h x fuel y := by
  intro fuel
  induction fuel with
  | zero => intro y; rfl
  | succ fuel ih =>
    intro y
    rw [vColRuns, vColRuns]
    by_cases hy : y < h
    · rw [if_pos hy, if_pos hy, hcol y hy, vRunEnd_congr hcol h y, ih, ih]
    · rw [if_neg hy, if_neg hy]

theorem hLineElems_congr {g1 g2 : List (List Char)} {w h : Nat}
    (hcell : ∀ x y, y < h → gridGet g1 x y = gridGet g2 x y) :
    hLineElems g1 w h = hLineElems g2 w h := by
  rw [hLineElems, hLineElems, hLinesAll, hLinesAll]
  congr 1
  apply List.flatMap_congr
  intro y hy
  rw [hRowRuns_congr (fun x => hcell x y (List.mem_range.mp hy)) w 0]

theorem vLineElems_congr {g1 g2 : List (List Char)} {w h : Nat}
    (hcell : ∀ x y, y < h → gridGet g1 x y = gridGet g2 x y) :
    vLineElems g1 w h = vLineElems g2 w h := by
  rw [vLineElems, vLineElems, vLinesAll, vLinesAll]
  congr 1
  apply List.flatMap_congr
  intro x _
  rw [vColRuns_congr (fun y hy => hcell x y hy) h 0]

theorem arrowElems_congr {g1 g2 : List (List Char)} {w h : Nat}
    (hcell : ∀ x y, y < h → gridGet g1 x y = gridGet g2 x y) :
    arrowElems g1 w h = arrowElems g2 w h := by
  rw [arrowElems, arrowElems]
  apply List.flatMap_congr
  intro y hy
  apply List.flatMap_congr
  intro x _
  rw [hcell x y (List.mem_range.mp hy)]

theorem pointElems_congr {g1 g2 : List (List Char)} {w h : Nat}
    (hcell : ∀ x y, y < h → gridGet g1 x y = gridGet g2 x y) :
    pointElems g1 w h = pointElems g2 w h := by
  rw [pointElems, pointElems]
  apply List.flatMap_congr
  intro y hy
  apply List.flatMap_congr
  intro x _
  rw [hcell x y (List.mem_range.mp hy)]

theorem textElems_congr {g1 g2 : List (List Char)} {w h : Nat}
    (hcell : ∀ x y, y < h → gridGet g1 x y = gridGet g2 x y) :
    textElems g1 w h = textElems g2 w h := by
  rw [textElems, textElems]
  apply List.flatMap_congr
  intro y hy
  apply List.flatMap_congr
  intro x _
  have hc := hcell x y (List.mem_range.mp hy)
  have hu : usedCell g1 x y = usedCell g2 x y := by
    rw [usedCell, usedCell, hc]
  rw [hu, hc]

theorem renderStructured_ext {s1 s2 : List Char}
    (hw : widthOf s1 = widthOf s2) (hh : heightOf s1 = heightOf s2)
    (hcell : ∀ x y, y < heightOf s1 →
      gridGet (linesOf s1) x y = gridGet (linesOf s2) x y) :
    renderStructured s1 = renderStructured s2 := by
  simp only [renderStructured]
  rw [← hw, ← hh]
  rw [hLineElems_congr hcell, vLineElems_congr hcell, arrowElems_congr hcell,
    pointElems_congr hcell, textElems_congr hcell]

/-- Appending a final newline to a string that does not already end in
    one, when the dedent leaves both unchanged (minimum 0 or sentinel):
    the extra empty split line is dropped by `gridHeight` again, so the
    rendered output is identical. -/
theorem render_snoc_nl_eq {s : List Char} (hne : s ≠ [])
    (hlast : s.getLast? ≠ some '\n')
    (hmin : minLead (splitLines s) = 0 ∨ minLead (splitLines s) = 999999) :
    render (s ++ ['\n']) = render s := by
  have hs1 : removeLeadingSpace s = s := by
    rw [removeLeadingSpace]
    show (if minLead (splitLines s) = 0 ∨ minLead (splitLines s) = 999999
      then s else _) = s
    rw [if_pos hmin]
  have hsplit2 : splitLines (s ++ ['\n']) = splitLines s ++ [[]] :=
    splitLines_append_nl_end s
  have hmin2 : minLead (splitLines (s ++ ['\n'])) = 0 ∨
      minLead (splitLines (s ++ ['\n'])) = 999999 := by
    rw [hsplit2, minLead_append_blank]
    exact hmin
  have hs2 : removeLeadingSpace (s ++ ['\n']) = s ++ ['\n'] := by
    rw [removeLeadingSpace]
    show (if minLead (splitLines (s ++ ['\n'])) = 0 ∨
        minLead (splitLines (s ++ ['\n'])) = 999999
      then s ++ ['\n'] else _) = s ++ ['\n']
    rw [if_pos hmin2]
  have hlines1 : linesOf s = splitLines s := by rw [linesOf, hs1]
  have hlines2 : linesOf (s ++ ['\n']) = splitLines s ++ [[]] := by
    rw [linesOf, hs2, hsplit2]
  have hlast2 : (splitLines s).getLast? ≠ some [] :=
    splitLines_last_ne_nil s hne hlast
  have hh0 : gridHeight (splitLines s) = (splitLines s).length :=
    gridHeight_of_last_ne hlast2
  have hw : widthOf (s ++ ['\n']) = widthOf s := by
    rw [widthOf, widthOf, hlines1, hlines2, gridWidth_append_empty]
  have hh : heightOf (s ++ ['\n']) = heightOf s := by
    rw [heightOf, heightOf, hlines1, hlines2, gridHeight_snoc_empty, hh0]
  have hcell : ∀ x y, y < heightOf (s ++ ['\n']) →
      gridGet (linesOf (s ++ ['\n'])) x y = gridGet (linesOf s) x y := by
    intro x y hy
    rw [hh, heightOf, hlines1, hh0] at hy
    rw [hlines1, hlines2]
    exact gridGet_append_empty hy
  rw [render_eq_structured, render_eq_structured]
  exact renderStructured_ext hw hh hcell

/-  Injectivity of the decimal rendering, used to tell two headers with
    different heights apart. -/

/-- Value of a most-significant-first digit string. -/
def digitsVal (l : List Char) : Nat :=
  l.foldl (fun a c => a * 10 + (c.toNat - 48)) 0

theorem digitsVal_append (l : List Char) (d : Char) :
    digitsVal (l ++ [d]) = digitsVal l * 10 + (d.toNat - 48) := by
  rw [digitsVal, List.foldl_append]
  rfl

theorem natDigits_val :
    ∀ fuel n, n < fuel → digitsVal (natDigits fuel n) = n := by
  intro fuel
  induction fuel with
  | zero => intro n h; omega
  | succ fuel ih =>
    intro n h
    rw [natDigits]
    by_cases h0 : n = 0
    · rw [if_pos h0, h0]
      rfl
    · rw [if_neg h0, digitsVal_append]
      have hdiv : n / 10 < n := Nat.div_lt_self (by omega) (by omega)
      rw [ih (n / 10) (by omega)]
      have h10 : n % 10 < 10 := Nat.mod_lt _ (by omega)
      have hch : (Char.ofNat (48 + n % 10)).toNat = 48 + n % 10 := by
        interval_cases h : n % 10 <;> decide
      rw [hch]
      omega

theorem digitsVal_natStr (n : Nat) : digitsVal (natStr n) = n := by
  rw [natStr]
  by_cases h0 : n = 0
  · rw [if_pos h0, h0]
    rfl
  · rw [if_neg h0]
    exact natDigits_val (n + 1) n (Nat.lt_succ_self n)

theorem natStr_inj {a b : Nat} (h : natStr a = natStr b) : a = b := by
  have hv := congrArg digitsVal h
  rwa [digitsVal_natStr, digitsVal_natStr] at hv

/-- Decimal digit character. -/
def isDigitCh (c : Char) : Bool := 47 < c.toNat && c.toNat < 58

theorem natDigits_digits :
    ∀ fuel n c, c ∈ natDigits fuel n → isDigitCh c = true := by
  intro fuel
  induction fuel with
  | zero =>
    intro n c hc
    rw [natDigits] at hc
    exact absurd hc (List.not_mem_nil c)
  | succ fuel ih =>
    intro n c hc
    rw [natDigits] at hc
    by_cases h0 : n = 0
    · rw [if_pos h0] at hc
      exact absurd hc (List.not_mem_nil c)
    · rw [if_neg h0] at hc
      rcases List.mem_append.mp hc with hd | hd
      · exact ih (n / 10) c hd
      · have hceq : c = Char.ofNat (48 + n % 10) := by simpa using hd
        have h10 : n % 10 < 10 := Nat.mod_lt _ (by omega)
        rw [hceq]
        interval_cases h : n % 10 <;> decide

theorem natStr_digits {n : Nat} {c : Char} (h : c ∈ natStr n) :
    isDigitCh c = true := by
  rw [natStr] at h
  by_cases h0 : n = 0
  · rw [if_pos h0] at h
    have : c = '0' := by simpa using h
    rw [this]
    decide
  · rw [if_neg h0] at h
    exact natDigits_digits (n + 1) n c h

/-- Two digit strings followed by a quote character determine each other:
    the quote is not a digit, so the split is unambiguous. -/
theorem digits_boundary_inj :
    ∀ (d1 d2 x y : List Char),
      (∀ c ∈ d1, isDigitCh c = true) → (∀ c ∈ d2, isDigitCh c = true) →
      d1 ++ '"' :: x = d2 ++ '"' :: y → d1 = d2 ∧ x = y := by
  intro d1
  induction d1 with
  | nil =>
    intro d2 x y _ h2 heq
    cases d2 with
    | nil =>
      simp only [List.nil_append] at heq
      exact ⟨rfl, (List.cons.injEq _ _ _ _).mp heq |>.2⟩
    | cons c2 r2 =>
      simp only [List.nil_append, List.cons_append] at heq
      have hc2 : c2 = '"' := ((List.cons.injEq _ _ _ _).mp heq).1.symm
      have := h2 c2 (List.mem_cons_self _ _)
      rw [hc2] at this
      exact absurd this (by decide)
  | cons c1 r1 ih =>
    intro d2 x y h1 h2 heq
    cases d2 with
    | nil =>
      simp only [List.nil_append, List.cons_append] at heq
      have hc1 : c1 = '"' := ((List.cons.injEq _ _ _ _).mp heq).1
      have := h1 c1 (List.mem_cons_self _ _)
      rw [hc1] at this
      exact absurd this (by decide)
    | cons c2 r2 =>
      simp only [List.cons_append] at heq
      have hp := (List.cons.injEq _ _ _ _).mp heq
      rcases ih r2 x y (fun c hc => h1 c (List.mem_cons_of_mem _ hc))
        (fun c hc => h2 c (List.mem_cons_of_mem _ hc)) hp.2 with ⟨hr, hx⟩
      exact ⟨by rw [hp.1, hr], hx⟩

/-- The height attribute can be read back off the header: headers with
    the same width but different heights give different outputs. -/
theorem svgHeader_height_inj {W H1 H2 : Nat} {r1 r2 : List Char}
    (h : svgHeader W H1 ++ r1 = svgHeader W H2 ++ r2) : H1 = H2 := by
  rw [svgHeader, svgHeader] at h
  simp only [List.append_assoc] at h
  have h1 := List.append_cancel_left h
  have h2 := List.append_cancel_left h1
  have h3 := List.append_cancel_left h2
  have h4 := List.append_cancel_left h3
  have hq : ∀ R : List Char, "\"".data ++ R = '"' :: R := fun R => rfl
  rw [hq, hq] at h4
  have := digits_boundary_inj (natStr H1) (natStr H2) _ _
    (fun c hc => natStr_digits hc) (fun c hc => natStr_digits hc) h4
  exact natStr_inj this.1

/-- Same width, different grid heights: the rendered strings differ
    (their height attributes differ). -/
theorem render_ne_of_height {s1 s2 : List Char}
    (hW : widthOf s1 = widthOf s2) (hH : heightOf s1 ≠ heightOf s2) :
    render s1 ≠ render s2 := by
  intro h
  rw [render_decomp s1, render_decomp s2, hW] at h
  simp only [List.append_assoc] at h
  have hinj := svgHeader_height_inj h
  simp only [SCALE, ASPECT] at hinj
  apply hH
  omega

/-  The stripping branch of the dedent, in structured form. -/

theorem removeLeadingSpace_strip {s : List Char} {m : Nat}
    (hm : minNB (splitLines s) = some m) (h1 : 1 ≤ m) (h9 : m < 999999) :
    removeLeadingSpace s
      = ((splitLines s).map (fun l => l.drop m ++ ['\n'])).flatten := by
  have hlead : minLead (splitLines s) = m := by
    rw [minLead_minNB, hm]
    exact min_eq_right (by omega)
  rw [removeLeadingSpace]
  show (if minLead (splitLines s) = 0 ∨ minLead (splitLines s) = 999999
      then s
      else ((splitLines s).map
        (fun l => l.drop (minLead (splitLines s)) ++ ['\n'])).flatten) = _
  rw [hlead, if_neg (by omega)]

theorem linesOf_strip {s : List Char} {m : Nat}
    (hm : minNB (splitLines s) = some m) (h1 : 1 ≤ m) (h9 : m < 999999) :
    linesOf s = (splitLines s).map (fun l => l.drop m) ++ [[]] := by
  rw [linesOf, removeLeadingSpace_strip hm h1 h9]
  have hnl : ∀ l ∈ (splitLines s).map (fun l => l.drop m), '\n' ∉ l := by
    intro l hl
    rcases List.mem_map.mp hl with ⟨l0, hl0, rfl⟩
    intro hmem
    exact splitLines_no_nl s l0 hl0 (List.drop_subset _ _ hmem)
  have hfl := splitLines_flatten_nl ((splitLines s).map (fun l => l.drop m)) hnl
  rw [List.map_map] at hfl
  exact hfl

theorem linesOf_strip_nl {s : List Char} {m : Nat}
    (hm : minNB (splitLines s) = some m) (h1 : 1 ≤ m) (h9 : m < 999999) :
    linesOf (s ++ ['\n'])
      = ((splitLines s).map (fun l => l.drop m) ++ [[]]) ++ [[]] := by
  have hm2 : minNB (splitLines (s ++ ['\n'])) = some m := by
    rw [splitLines_append_nl_end, minNB_append_blank]
    exact hm
  rw [linesOf_strip hm2 h1 h9, splitLines_append_nl_end, List.map_append]
  simp only [List.map_cons, List.map_nil, List.drop_nil]

/-- C10 (counterexample): for `c4Input` (one line of 999999 spaces and a
    letter, not ending in a newline) the minimum leading-whitespace count
    over the non-blank lines is 999999 ≥ 1, yet appending a newline does
    not change the rendered output at all — the dedent sentinel keeps both
    inputs unstripped and the extra empty split line is dropped again by
    `gridHeight`, contradicting the claim's "differs" branch. -/
theorem c10_counterexample :
    c4Input.getLast? ≠ some '\n' ∧
    minNB (splitLines c4Input) = some 999999 ∧
    render (c4Input ++ ['\n']) = render c4Input := by
  have hlast : c4Input.getLast? ≠ some '\n' := by
    rw [c4Input, List.getLast?_concat]
    simp
  refine ⟨hlast, c4Input_minNB, ?_⟩
  apply render_snoc_nl_eq ?_ hlast
  · exact Or.inr (by rw [minLead_minNB, c4Input_minNB]; exact min_self 999999)
  · intro h
    have hlen := congrArg List.length h
    rw [c4Input, List.length_append, List.length_replicate] at hlen
    simp at hlen

/-- C10 (amended): for an input not ending in a newline, if the minimum
    leading-whitespace count of the non-blank lines is 0 then appending a
    newline leaves the output unchanged; if it is between 1 and 999998
    (below the source's sentinel) the outputs differ: the grid gets one
    extra row, which is blank, the width is unchanged, and the emitted
    pixel height grows by 16; and if it is 999999 or more the dedent never
    strips, so appending a newline again leaves the output unchanged. -/
theorem c10_amended (s : List Char) (hlast : s.getLast? ≠ some '\n') :
    (minNB (splitLines s) = some 0 → render (s ++ ['\n']) = render s) ∧
    (∀ m, minNB (splitLines s) = some m → 1 ≤ m → m < 999999 →
      render (s ++ ['\n']) ≠ render s ∧
      heightOf (s ++ ['\n']) = heightOf s + 1 ∧
      widthOf (s ++ ['\n']) = widthOf s ∧
      (∀ x, gridGet (linesOf (s ++ ['\n'])) x (heightOf s) = ' ') ∧
      (heightOf (s ++ ['\n']) + 1) * SCALE * ASPECT
        = (heightOf s + 1) * SCALE * ASPECT + 16) ∧
    (∀ m, minNB (splitLines s) = some m → 999999 ≤ m →
      render (s ++ ['\n']) = render s) := by
  refine ⟨?_, ?_, ?_⟩
  · intro hm
    have hne : s ≠ [] := by
      intro hs
      rw [hs] at hm
      exact absurd hm (by decide)
    apply render_snoc_nl_eq hne hlast
    exact Or.inl (by rw [minLead_minNB, hm]; exact min_eq_right (Nat.zero_le _))
  swap
  · intro m hm h9
    have hne : s ≠ [] := by
      intro hs
      rw [hs] at hm
      exact Option.noConfusion
        (show (none : Option Nat) = some m from hm)
    apply render_snoc_nl_eq hne hlast
    exact Or.inr (by rw [minLead_minNB, hm]; exact min_eq_left h9)
  · intro m hm h1 h9
    have hL1 := linesOf_strip hm h1 h9
    have hL2 := linesOf_strip_nl hm h1 h9
    have hh1 : heightOf s = ((splitLines s).map (fun l => l.drop m)).length := by
      rw [heightOf, hL1, gridHeight_snoc_empty]
    have hh2 : heightOf (s ++ ['\n'])
        = ((splitLines s).map (fun l => l.drop m)).length + 1 := by
      rw [heightOf, hL2, gridHeight_snoc_empty]
      simp
    have hwid : widthOf (s ++ ['\n']) = widthOf s := by
      rw [widthOf, widthOf, hL2, hL1, gridWidth_append_empty]
    refine ⟨?_, by omega, hwid, ?_, ?_⟩
    · exact render_ne_of_height hwid (by omega)
    · intro x
      apply gridGet_blank_row
      rw [hL2, hh1]
      rw [getD_append_left _ _ (by simp)]
      exact getD_concat_self _ [] []
    · simp only [SCALE, ASPECT]
      omega

/-- Witness for C10 on the input " a" (one leading space, minimum 1):
    appending a newline changes the output. -/
theorem c10_amended_witness :
    render (" a".data ++ ['\n']) ≠ render " a".data :=
  ((c10_amended " a".data (by decide)).2.1 1 (by decide) (by decide)
    (by decide)).1

/-  C1: the output is a syntactically valid SVG/XML document.  We give an
    XML document tree, its standard serialization, and a well-formedness
    checker; `render s` is shown to be the serialization of a well-formed
    tree with root tag `svg`. -/

mutual

inductive Xml : Type where
  | elemSelf : List Char → List (List Char × List Char) → Xml
  | elemText : List Char → List (List Char × List Char) → List Char → Xml
  | elemBlock : List Char → List (List Char × List Char) → XmlList → Xml

inductive XmlList : Type where
  | nil : XmlList
  | cons : Xml → XmlList → XmlList

end

/-- An ASCII letter. -/
def letterCh (c : Char) : Bool :=
  ('a' ≤ c && c ≤ 'z') || ('A' ≤ c && c ≤ 'Z')

/-- A character allowed in a tag or attribute name (past the first). -/
def nameChar (c : Char) : Bool :=
  letterCh c || ('0' ≤ c && c ≤ '9') || c = '-'

/-- A valid tag or attribute name: nonempty, starts with a letter, all
    characters are name characters. -/
def nameOk : List Char → Bool
  | [] => false
  | c :: rest => letterCh c && rest.all nameChar

/-- A character allowed raw inside a double-quoted attribute value. -/
def valChar (c : Char) : Bool :=
  !(c = '"') && !(c = '<') && !(c = '&')

/-- A valid double-quoted attribute value. -/
def valOk (v : List Char) : Bool := v.all valChar

/-- Valid element text content: no raw markup character; an ampersand
    must start one of the four entities the renderer emits. -/
def textOk : List Char → Bool
  | [] => true
  | c :: rest =>
    if c = '<' then false
    else if c ≠ '&' then textOk rest
    else match rest with
      | 'a' :: 'm' :: 'p' :: ';' :: r2 => textOk r2
      | 'l' :: 't' :: ';' :: r2 => textOk r2
      | 'g' :: 't' :: ';' :: r2 => textOk r2
      | 'q' :: 'u' :: 'o' :: 't' :: ';' :: r2 => textOk r2
      | _ => false

/-- Attribute names of an element must be pairwise distinct. -/
def namesDistinct : List (List Char) → Bool
  | [] => true
  | n :: r => !(r.contains n) && namesDistinct r

/-- Well-formed attribute list: valid names, valid values, no duplicate
    names. -/
def attrsOk (attrs : List (List Char × List Char)) : Bool :=
  attrs.all (fun a => nameOk a.1 && valOk a.2) &&
  namesDistinct (attrs.map Prod.fst)

mutual

/-- Well-formed XML element: valid tag name, well-formed attributes, and
    well-formed content. -/
def xmlWF : Xml → Bool
  | .elemSelf tag attrs => nameOk tag && attrsOk attrs
  | .elemText tag attrs content =>
    nameOk tag && attrsOk attrs && textOk content
  | .elemBlock tag attrs children =>
    nameOk tag && attrsOk attrs && xmlWFList children

def xmlWFList : XmlList → Bool
  | .nil => true
  | .cons x r => xmlWF x && xmlWFList r

end

/-- Serialization of an attribute list: a space, the name, `="`, the
    value, `"`, for each attribute in order. -/
def serializeAttrs : List (List Char × List Char) → List Char
  | [] => []
  | a :: rest => ' ' :: (a.1 ++ '=' :: '"' :: (a.2 ++ '"' :: serializeAttrs rest))

mutual

/-- Standard serialization: `<tag attrs/>` for a childless element,
    `<tag attrs>content</tag>` for a text element, and
    `<tag attrs>` + newline + children (each followed by a newline) +
    `</tag>` for a block element. -/
def serializeXml : Xml → List Char
  | .elemSelf tag attrs => '<' :: (tag ++ serializeAttrs attrs ++ "/>".data)
  | .elemText tag attrs content =>
    '<' :: (tag ++ serializeAttrs attrs
      ++ '>' :: (content ++ "</".data ++ tag ++ ['>']))
  | .elemBlock tag attrs children =>
    '<' :: (tag ++ serializeAttrs attrs
      ++ '>' :: '\n' :: (serializeList children ++ "</".data ++ tag ++ ['>']))

def serializeList : XmlList → List Char
  | .nil => []
  | .cons x r => serializeXml x ++ '\n' :: serializeList r

end

/-- List-to-XmlList conversion. -/
def xmlListOf : List Xml → XmlList
  | [] => .nil
  | x :: r => .cons x (xmlListOf r)

/-- The attribute list of the `<svg>` root as `render` emits it. -/
def svgAttrs (w h : Nat) : List (List Char × List Char) :=
  [("xmlns".data, "http://www.w3.org/2000/svg".data),
   ("version".data, "1.1".data),
   ("width".data, natStr w),
   ("height".data, natStr h),
   ("viewBox".data, "0 0 ".data ++ natStr w ++ ' ' :: natStr h),
   ("class".data, "diagram".data),
   ("text-anchor".data, "middle".data),
   ("font-family".data, "monospace".data),
   ("font-size".data, "13px".data),
   ("stroke-linecap".data, "round".data)]

/-- The `<line>` element of a horizontal run `(y, start, stop)`. -/
def lineXmlH (r : Nat × Nat × Nat) : Xml :=
  .elemSelf "line".data
    [("x1".data, natStr ((r.2.1 + 1) * SCALE)),
     ("y1".data, natStr ((r.1 + 1) * SCALE * ASPECT)),
     ("x2".data, natStr (r.2.2 * SCALE)),
     ("y2".data, natStr ((r.1 + 1) * SCALE * ASPECT)),
     ("fill".data, "none".data),
     ("stroke".data, "black".data)]

/-- The `<line>` element of a vertical run `(x, start, stop)`. -/
def lineXmlV (r : Nat × Nat × Nat) : Xml :=
  .elemSelf "line".data
    [("x1".data, natStr ((r.1 + 1) * SCALE)),
     ("y1".data, natStr ((r.2.1 + 1) * SCALE * ASPECT)),
     ("x2".data, natStr ((r.1 + 1) * SCALE)),
     ("y2".data, natStr (r.2.2 * SCALE * ASPECT)),
     ("fill".data, "none".data),
     ("stroke".data, "black".data)]

/-- The `<polygon>` element of an arrowhead cell `(c, x, y)`. -/
def arrowXml (e : Char × Nat × Nat) : Xml :=
  .elemSelf "polygon".data
    [("points".data,
      natStr ((e.2.1 + 1) * SCALE + 8) ++ ',' ::
      (natStr ((e.2.2 + 1) * SCALE * ASPECT) ++ ' ' ::
      (natStr ((e.2.1 + 1) * SCALE - 4) ++ ',' ::
      (natStr ((e.2.2 + 1) * SCALE * ASPECT - 3) ++ ' ' ::
      (natStr ((e.2.1 + 1) * SCALE - 4) ++ ',' ::
      natStr ((e.2.2 + 1) * SCALE * ASPECT + 3)))))),
     ("fill".data, "black".data),
     ("transform".data,
      "rotate(".data ++ natStr (arrowAngle e.1) ++ ',' ::
      (natStr ((e.2.1 + 1) * SCALE) ++ ',' ::
      (natStr ((e.2.2 + 1) * SCALE * ASPECT) ++ [')'])))]

/-- The `<circle>` element of a point cell `(c, x, y)`. -/
def pointXml (e : Char × Nat × Nat) : Xml :=
  .elemSelf "circle".data
    (("cx".data, natStr ((e.2.1 + 1) * SCALE)) ::
     ("cy".data, natStr ((e.2.2 + 1) * SCALE * ASPECT)) ::
     ("r".data, "6".data) ::
     (if e.1 = '*' then [("fill".data, "black".data)]
      else [("fill".data, "white".data), ("stroke".data, "black".data)]))

/-- The `<text>` element of a text cell `(c, x, y)`. -/
def textXml (e : Char × Nat × Nat) : Xml :=
  .elemText "text".data
    [("x".data, natStr ((e.2.1 + 1) * SCALE)),
     ("y".data, natStr (4 + (e.2.2 + 1) * SCALE * ASPECT))]
    (escapeHTMLEntities [e.1])

/-- The `<g class="text">` group holding the text elements. -/
def gTextXml (telems : List (Char × Nat × Nat)) : Xml :=
  .elemBlock "g".data [("class".data, "text".data)]
    (xmlListOf (telems.map textXml))

/-- The XML document tree whose serialization is `render s`. -/
def xmlOfRender (s : List Char) : Xml :=
  .elemBlock "svg".data
    (svgAttrs ((widthOf s + 1) * SCALE) ((heightOf s + 1) * SCALE * ASPECT))
    (xmlListOf
      ((hLineElems (linesOf s) (widthOf s) (heightOf s)).map lineXmlH
       ++ (vLineElems (linesOf s) (widthOf s) (heightOf s)).map lineXmlV
       ++ (arrowElems (linesOf s) (widthOf s) (heightOf s)).map arrowXml
       ++ (pointElems (linesOf s) (widthOf s) (heightOf s)).map pointXml
       ++ [gTextXml (textElems (linesOf s) (widthOf s) (heightOf s))]))

theorem serializeList_ofList_append (A B : List Xml) :
    serializeList (xmlListOf (A ++ B))
      = serializeList (xmlListOf A) ++ serializeList (xmlListOf B) := by
  induction A with
  | nil => rfl
  | cons x r ih =>
    rw [List.cons_append, xmlListOf, xmlListOf, serializeList, serializeList, ih]
    simp only [List.append_assoc, List.cons_append]

theorem serializeList_map_eq {α : Type} (f : α → Xml) (str : α → List Char)
    (hfe : ∀ a, serializeXml (f a) ++ ['\n'] = str a) :
    ∀ L : List α, serializeList (xmlListOf (L.map f)) = (L.map str).flatten := by
  intro L
  induction L with
  | nil => rfl
  | cons a r ih =>
    rw [List.map_cons, xmlListOf, serializeList, ih, List.map_cons,
      List.flatten_cons, ← hfe a]
    simp only [List.append_assoc, List.singleton_append]

theorem serialize_lineH (r : Nat × Nat × Nat) :
    serializeXml (lineXmlH r) ++ ['\n'] = hLineStr r.2.1 r.2.2 r.1 := by
  simp only [lineXmlH, hLineStr, serializeXml, serializeAttrs]
  simp only [List.append_assoc, List.cons_append, List.nil_append]

theorem serialize_lineV (r : Nat × Nat × Nat) :
    serializeXml (lineXmlV r) ++ ['\n'] = vLineStr r.1 r.2.1 r.2.2 := by
  simp only [lineXmlV, vLineStr, serializeXml, serializeAttrs]
  simp only [List.append_assoc, List.cons_append, List.nil_append]

theorem serialize_arrow (e : Char × Nat × Nat) :
    serializeXml (arrowXml e) ++ ['\n'] = arrowStr e.1 e.2.1 e.2.2 := by
  simp only [arrowXml, arrowStr, serializeXml, serializeAttrs]
  simp only [List.append_assoc, List.cons_append, List.nil_append]

theorem serialize_point (e : Char × Nat × Nat) :
    serializeXml (pointXml e) ++ ['\n'] = pointStr e.1 e.2.1 e.2.2 := by
  by_cases hc : e.1 = '*'
  · simp only [pointXml, pointStr, if_pos hc, serializeXml, serializeAttrs]
    simp only [List.append_assoc, List.cons_append, List.nil_append]
  · simp only [pointXml, pointStr, if_neg hc, serializeXml, serializeAttrs]
    simp only [List.append_assoc, List.cons_append, List.nil_append]

theorem serialize_text (e : Char × Nat × Nat) :
    serializeXml (textXml e) ++ ['\n'] = textStr e.1 e.2.1 e.2.2 := by
  simp only [textXml, textStr, serializeXml, serializeAttrs]
  simp only [List.append_assoc, List.cons_append, List.nil_append]

set_option maxRecDepth 4000 in
theorem serialize_svg_header (W H : Nat) (K : List Char) :
    '<' :: ("svg".data ++ serializeAttrs (svgAttrs W H) ++ '>' :: '\n' :: K)
      = svgHeader W H ++ K := by
  simp only [svgAttrs, serializeAttrs, svgHeader]
  simp only [List.append_assoc, List.cons_append, List.nil_append]

theorem serialize_gtext (telems : List (Char × Nat × Nat)) :
    serializeXml (gTextXml telems) ++ ['\n']
      = "<g class=\"text\">\n".data
        ++ ((telems.map (fun e => textStr e.1 e.2.1 e.2.2)).flatten
        ++ "</g>\n".data) := by
  rw [gTextXml]
  simp only [serializeXml]
  rw [serializeList_map_eq textXml (fun e => textStr e.1 e.2.1 e.2.2)
    serialize_text telems]
  simp only [List.append_assoc, List.cons_append, List.nil_append]
  rfl

/-- `render s` is the standard serialization of the XML document tree
    `xmlOfRender s`. -/
theorem serializeXml_xmlOfRender (s : List Char) :
    serializeXml (xmlOfRender s) = render s := by
  rw [render_eq_structured, xmlOfRender]
  simp only [serializeXml]
  rw [serializeList_ofList_append, serializeList_ofList_append,
    serializeList_ofList_append, serializeList_ofList_append]
  have hg : serializeList (xmlListOf
      [gTextXml (textElems (linesOf s) (widthOf s) (heightOf s))])
      = serializeXml (gTextXml
          (textElems (linesOf s) (widthOf s) (heightOf s))) ++ ['\n'] := rfl
  rw [hg, serialize_gtext]
  rw [serializeList_map_eq lineXmlH (fun r => hLineStr r.2.1 r.2.2 r.1)
    serialize_lineH]
  rw [serializeList_map_eq lineXmlV (fun r => vLineStr r.1 r.2.1 r.2.2)
    serialize_lineV]
  rw [serializeList_map_eq arrowXml (fun e => arrowStr e.1 e.2.1 e.2.2)
    serialize_arrow]
  rw [serializeList_map_eq pointXml (fun e => pointStr e.1 e.2.1 e.2.2)
    serialize_point]
  rw [serialize_svg_header]
  simp only [renderStructured]
  simp only [List.append_assoc, List.cons_append, List.nil_append]

/-  Well-formedness of the document tree. -/

theorem valChar_of_digit {c : Char} (h : isDigitCh c = true) :
    valChar c = true := by
  simp only [isDigitCh, Bool.and_eq_true, decide_eq_true_eq] at h
  have h1 : ¬(c = '"') := by
    intro hc
    rw [hc] at h
    exact absurd h.1 (by decide)
  have h2 : ¬(c = '<') := by
    intro hc
    rw [hc] at h
    exact absurd h.2 (by decide)
  have h3 : ¬(c = '&') := by
    intro hc
    rw [hc] at h
    exact absurd h.1 (by decide)
  simp [valChar, h1, h2, h3]

theorem valOk_natStr (n : Nat) : valOk (natStr n) = true := by
  rw [valOk, List.all_eq_true]
  intro c hc
  exact valChar_of_digit (natStr_digits hc)

theorem valOk_append (a b : List Char) :
    valOk (a ++ b) = (valOk a && valOk b) := List.all_append

theorem valOk_cons (c : Char) (v : List Char) :
    valOk (c :: v) = (valChar c && valOk v) := rfl

theorem attrsOk_svgAttrs (w h : Nat) : attrsOk (svgAttrs w h) = true := by
  simp only [attrsOk, svgAttrs, List.all_cons, List.all_nil, List.map_cons,
    List.map_nil, valOk_natStr, Bool.and_eq_true, and_true]
  and_intros <;> first
    | decide
    | exact valOk_natStr _
    | (simp only [List.append_assoc, valOk_append, valOk_cons, valOk_natStr,
        Bool.and_eq_true, true_and, and_true]
       decide)

theorem xmlWF_lineXmlH (r : Nat × Nat × Nat) : xmlWF (lineXmlH r) = true := by
  simp only [xmlWF, lineXmlH, attrsOk, List.all_cons, List.all_nil,
    List.map_cons, List.map_nil, valOk_natStr, Bool.and_eq_true, and_true]
  and_intros <;> decide

theorem xmlWF_lineXmlV (r : Nat × Nat × Nat) : xmlWF (lineXmlV r) = true := by
  simp only [xmlWF, lineXmlV, attrsOk, List.all_cons, List.all_nil,
    List.map_cons, List.map_nil, valOk_natStr, Bool.and_eq_true, and_true]
  and_intros <;> decide

theorem xmlWF_arrowXml (e : Char × Nat × Nat) : xmlWF (arrowXml e) = true := by
  simp only [xmlWF, arrowXml, attrsOk, List.all_cons, List.all_nil,
    List.map_cons, List.map_nil, valOk_natStr, Bool.and_eq_true, and_true]
  and_intros <;> first
    | decide
    | exact valOk_natStr _
    | (simp only [List.append_assoc, valOk_append, valOk_cons, valOk_natStr,
        Bool.and_eq_true, true_and, and_true]
       and_intros <;> decide)

theorem xmlWF_pointXml (e : Char × Nat × Nat) : xmlWF (pointXml e) = true := by
  by_cases hc : e.1 = '*'
  · simp only [xmlWF, pointXml, if_pos hc, attrsOk, List.all_cons,
      List.all_nil, List.map_cons, List.map_nil, valOk_natStr,
      Bool.and_eq_true, and_true]
    and_intros <;> decide
  · simp only [xmlWF, pointXml, if_neg hc, attrsOk, List.all_cons,
      List.all_nil, List.map_cons, List.map_nil, valOk_natStr,
      Bool.and_eq_true, and_true]
    and_intros <;> decide

theorem textOk_escape_one (c : Char) :
    textOk (escapeHTMLEntities [c]) = true := by
  have hesc : escapeHTMLEntities [c] = escChunk c := by
    rw [escapeHTMLEntities, escLoop, escLoop, List.nil_append]
  rw [hesc, escChunk]
  by_cases h1 : c = '&'
  · rw [if_pos h1]; decide
  rw [if_neg h1]
  by_cases h2 : c = '<'
  · rw [if_pos h2]; decide
  rw [if_neg h2]
  by_cases h3 : c = '>'
  · rw [if_pos h3]; decide
  rw [if_neg h3]
  by_cases h4 : c = '"'
  · rw [if_pos h4]; decide
  rw [if_neg h4]
  simp [textOk, h1, h2]

theorem xmlWF_textXml (e : Char × Nat × Nat) : xmlWF (textXml e) = true := by
  simp only [xmlWF, textXml, attrsOk, List.all_cons, List.all_nil,
    List.map_cons, List.map_nil, valOk_natStr, textOk_escape_one,
    Bool.and_eq_true, and_true]
  and_intros <;> decide

theorem xmlWFList_ofList (L : List Xml) :
    xmlWFList (xmlListOf L) = L.all xmlWF := by
  induction L with
  | nil => rfl
  | cons x r ih => rw [xmlListOf, xmlWFList, ih, List.all_cons]

theorem xmlWF_gTextXml (telems : List (Char × Nat × Nat)) :
    xmlWF (gTextXml telems) = true := by
  simp only [xmlWF, gTextXml, xmlWFList_ofList, Bool.and_eq_true]
  refine ⟨⟨by decide, by decide⟩, ?_⟩
  rw [List.all_eq_true]
  intro x hx
  rcases List.mem_map.mp hx with ⟨e, _, rfl⟩
  exact xmlWF_textXml e

theorem xmlWF_xmlOfRender (s : List Char) : xmlWF (xmlOfRender s) = true := by
  rw [xmlOfRender]
  simp only [xmlWF, xmlWFList_ofList, Bool.and_eq_true]
  refine ⟨⟨by decide, attrsOk_svgAttrs _ _⟩, ?_⟩
  rw [List.all_eq_true]
  intro x hx
  simp only [List.mem_append, List.mem_map, List.mem_singleton] at hx
  rcases hx with ((((⟨r, _, rfl⟩ | ⟨r, _, rfl⟩) | ⟨e, _, rfl⟩) | ⟨e, _, rfl⟩) | rfl)
  · exact xmlWF_lineXmlH r
  · exact xmlWF_lineXmlV r
  · exact xmlWF_arrowXml e
  · exact xmlWF_pointXml e
  · exact xmlWF_gTextXml _

/-- C1: `render` is a total function of its input (it is defined for every
    input string, including the empty and whitespace-only ones, with
    bounds-checked grid access), and its output is a syntactically valid
    SVG document: it is the serialization of a well-formed XML tree whose
    root element is `svg` — valid tag and attribute names, properly quoted
    attribute values without raw markup characters, escaped text content,
    and no duplicate attribute names. -/
theorem c1_render_valid_svg (s : List Char) :
    render s = serializeXml (xmlOfRender s) ∧ xmlWF (xmlOfRender s) = true :=
  ⟨(serializeXml_xmlOfRender s).symm, xmlWF_xmlOfRender s⟩

end Aasvg
